import Mathlib

set_option maxRecDepth 4000

/-!
Verification of the shift-planning core of `gestione_turni.py`.

The Python source is shallowly embedded below:
* dates are represented by their proleptic-Gregorian ordinal
  (`datetime.toordinal`, Jan 1 of year 1 = 1), and the calendar helpers
  (`weekday`, `isocalendar()[1]`, `calendar.monthrange`) are reimplemented
  over `Nat`/`Int`;
* Python `float` hour arithmetic is modelled exactly: every hour quantity in
  the program is an integer multiple of 1/60 (durations are
  `h + m/60`-shaped, weekly ceilings are integers), so hours are represented
  as *sixtieths of an hour* in `Int` — the value `x` stands for `x/60` hours
  (e.g. a 6.0-hour shift has `ore = 360`).  Both the ledger update and the
  ceiling guard use the same addition in the source, so the invariants stated
  here transfer verbatim;
* Python dicts are modelled by insertion-ordered association lists,
  Python's stable `list.sort` by a stable insertion sort;
* `Turno`/`Addetto` objects have no `__eq__`, so object identity governs the
  pool bookkeeping; shifts inside the engine are therefore represented by
  their index into the manager's catalog `turni`.
-/

namespace GestioneTurni

/-! ## Calendar: proleptic Gregorian, as in Python `datetime` -/

/-- Gregorian leap year, as in `calendar.isleap`. -/
def isLeapYear (y : Nat) : Bool :=
  y % 4 == 0 && (y % 100 != 0 || y % 400 == 0)

/-- Number of days of month `m` of year `y` (`calendar.monthrange(y, m)[1]`). -/
def daysInMonth (y m : Nat) : Nat :=
  if m = 2 then (if isLeapYear y then 29 else 28)
  else if m = 4 ∨ m = 6 ∨ m = 9 ∨ m = 11 then 30
  else 31

/-- Days in all years strictly before year `y` (`y ≥ 1`). -/
def daysBeforeYear (y : Nat) : Nat :=
  let n := y - 1
  365 * n + n / 4 - n / 100 + n / 400

/-- Days in the months of year `y` strictly before month `m`. -/
def daysBeforeMonth (y m : Nat) : Nat :=
  ((List.range' 1 (m - 1)).map (daysInMonth y)).sum

/-- `datetime(y, m, d).toordinal()`: Jan 1 of year 1 has ordinal 1. -/
def toOrdinal (y m d : Nat) : Nat :=
  daysBeforeYear y + daysBeforeMonth y m + d

/-- `datetime.weekday()` of the date with ordinal `o`: 0 = Monday .. 6 = Sunday. -/
def pyWeekday (o : Nat) : Nat :=
  (o + 6) % 7

/-- Ordinal of the Monday of ISO week 1 of year `y`
(CPython's `_isoweek1monday`). -/
def isoweek1monday (y : Nat) : Nat :=
  let firstday := toOrdinal y 1 1
  let firstweekday := (firstday + 6) % 7
  let week1monday := firstday - firstweekday
  if 3 < firstweekday then week1monday + 7 else week1monday

/-- `datetime(y, m, d).isocalendar()[1]`: the ISO-8601 week number. -/
def isocalendarWeek (y m d : Nat) : Nat :=
  let today := toOrdinal y m d
  let week : Int := Int.fdiv ((today : Int) - (isoweek1monday y : Int)) 7
  if week < 0 then
    (Int.fdiv ((today : Int) - (isoweek1monday (y - 1) : Int)) 7 + 1).toNat
  else if 52 ≤ week ∧ isoweek1monday (y + 1) ≤ today then 1
  else (week + 1).toNat

example : toOrdinal 2025 1 1 = 739252 := by decide
example : toOrdinal 2025 6 1 = 739403 := by decide
example : toOrdinal 2025 6 3 = 739405 := by decide
example : pyWeekday (toOrdinal 2025 1 1) = 2 := by decide
example : pyWeekday (toOrdinal 2025 6 1) = 6 := by decide
example : pyWeekday (toOrdinal 1 1 1) = 0 := by decide
example : toOrdinal 2000 2 29 = 730179 := by decide
example : isocalendarWeek 2025 1 1 = 1 := by decide
example : isocalendarWeek 2025 6 1 = 22 := by decide
example : isocalendarWeek 2025 6 3 = 23 := by decide
example : isocalendarWeek 2021 1 1 = 53 := by decide
example : isocalendarWeek 2025 12 29 = 1 := by decide
example : isocalendarWeek 2016 1 3 = 53 := by decide
example : isocalendarWeek 2000 2 29 = 9 := by decide
example : isocalendarWeek 2024 12 30 = 1 := by decide

/-! ## Association lists (Python dicts, insertion-ordered) -/

/-- `dict[k] += v`, inserting `0` first when the key is absent
(`Addetto.add_ore_settimana`).  Preserves insertion order. -/
def dictAdd (l : List (Nat × Int)) (w : Nat) (ore : Int) : List (Nat × Int) :=
  match l with
  | [] => [(w, ore)]
  | (k, v) :: t => if k = w then (k, v + ore) :: t else (k, v) :: dictAdd t w ore

/-- `dict[k] = v` on an insertion-ordered association list. -/
def dictSet (l : List (Nat × Nat)) (d t : Nat) : List (Nat × Nat) :=
  match l with
  | [] => [(d, t)]
  | (k, v) :: tl => if k = d then (k, t) :: tl else (k, v) :: dictSet tl d t

/-- `dict[k] = v` for the inner (name-keyed) mapping of the Schedule. -/
def innerSet (l : List (String × Nat)) (n : String) (t : Nat) : List (String × Nat) :=
  match l with
  | [] => [(n, t)]
  | (k, v) :: tl => if k = n then (k, t) :: tl else (k, v) :: innerSet tl n t

/-! ## `Turno` -/

/-- A shift type (`class Turno`).  `ore` is the derived duration in sixtieths
of an hour, fixed at construction; inside the engine shifts are referenced by
their index into the manager's catalog, mirroring Python object identity. -/
structure Turno where
  nome : String
  ora_inizio : String
  ora_fine : String
  ore : Int
deriving DecidableEq, Repr, Inhabited

/-- `Turno._calcola_ore`, on the already-parsed `HH:MM` components.
The Python value `h + m/60` (hours) is represented by `60*h + m`
(sixtieths); comparisons and sums of such values agree with the `float`
computation of the source on all `HH:MM` inputs. -/
def calcola_ore (h_inizio m_inizio h_fine m_fine : Nat) : Int :=
  let ore_inizio : Int := 60 * (h_inizio : Int) + (m_inizio : Int)
  let ore_fine : Int := 60 * (h_fine : Int) + (m_fine : Int)
  if ore_fine < ore_inizio then (ore_fine + 24 * 60) - ore_inizio
  else ore_fine - ore_inizio

/-- `str.split(':')` on the character list of a string. -/
def splitOnColon : List Char → List (List Char)
  | [] => [[]]
  | c :: t =>
    match splitOnColon t with
    | [] => []
    | h :: r => if c = ':' then [] :: h :: r else (c :: h) :: r

/-- Decimal `int(...)` of a digit string; `none` on the empty string or a
non-digit character. -/
def decToNat? (cs : List Char) : Option Nat :=
  match cs with
  | [] => none
  | _ =>
    cs.foldl
      (fun acc c =>
        match acc with
        | some n => if c.isDigit then some (10 * n + (c.toNat - 48)) else none
        | none => none)
      (some 0)

/-- `map(int, s.split(':'))` for a two-component time string; `none` models the
`ValueError` Python raises on malformed input. -/
def parseHM (s : String) : Option (Nat × Nat) :=
  match splitOnColon s.data with
  | [a, b] =>
    match decToNat? a, decToNat? b with
    | some h, some m => some (h, m)
    | _, _ => none
  | _ => none

/-- `Turno.__init__`: stores the strings and the duration computed from them. -/
def mkTurno (nome ora_inizio ora_fine : String) : Option Turno :=
  match parseHM ora_inizio, parseHM ora_fine with
  | some (hi, mi), some (hf, mf) =>
    some ⟨nome, ora_inizio, ora_fine, calcola_ore hi mi hf mf⟩
  | _, _ => none

example : (mkTurno "Mattina" "08:00" "14:00").map Turno.ore = some (6 * 60) := by decide
example : (mkTurno "Notte" "22:00" "06:00").map Turno.ore = some (8 * 60) := by decide

/-! ## `Addetto` -/

/-- A staff member (`class Addetto`).  `ferie_permessi` holds date ordinals;
`turni_assegnati` is the insertion-ordered date-ordinal → shift-index map;
`ore_per_settimana` the insertion-ordered ISO-week → hours map.  Hour fields
(`ore_contratto`, `ore_max_settimanale`, ledger values) are in sixtieths of
an hour. -/
structure Addetto where
  nome : String
  ore_contratto : Int
  ore_max_settimanale : Int
  straordinario : Bool
  giorni_riposo : List Nat
  ferie_permessi : List Nat
  ore_per_settimana : List (Nat × Int)
  turni_assegnati : List (Nat × Nat)
deriving DecidableEq, Repr, Inhabited

/-- `Addetto.puo_lavorare`. -/
def puo_lavorare (a : Addetto) (data : Nat) : Bool :=
  !(a.giorni_riposo.contains (pyWeekday data)) && !(a.ferie_permessi.contains data)

/-- `Addetto.get_ore_settimana`: `self.ore_per_settimana.get(w, 0)`. -/
def get_ore_settimana (a : Addetto) (numero_settimana : Nat) : Int :=
  (a.ore_per_settimana.lookup numero_settimana).getD 0

/-- `Addetto.add_ore_settimana`. -/
def add_ore_settimana (a : Addetto) (numero_settimana : Nat) (ore : Int) : Addetto :=
  { a with ore_per_settimana := dictAdd a.ore_per_settimana numero_settimana ore }

/-- `Addetto.puo_aggiungere_ore_settimana`. -/
def puo_aggiungere_ore_settimana (a : Addetto) (numero_settimana : Nat) (ore : Int) : Bool :=
  decide (get_ore_settimana a numero_settimana + ore ≤ a.ore_max_settimanale)

/-- The constant data of an `Addetto`: everything the run never mutates. -/
def Addetto.statico (a : Addetto) : String × Int × Int × Bool × List Nat × List Nat :=
  (a.nome, a.ore_contratto, a.ore_max_settimanale, a.straordinario,
    a.giorni_riposo, a.ferie_permessi)

/-- `Addetto` with the per-run state cleared, as done by the reset step of
`pianifica_turni`. -/
def reset_addetto (a : Addetto) : Addetto :=
  { a with turni_assegnati := [], ore_per_settimana := [] }

/-! ## `TurnoManager` -/

/-- The Schedule: the insertion-ordered map
date-ordinal → (staff name → shift index). -/
abbrev Pianificazione := List (Nat × List (String × Nat))

/-- `class TurnoManager` (the planning-relevant fields). -/
structure TurnoManager where
  addetti : List Addetto
  turni : List Turno
  mese : Nat
  anno : Nat
  pianificazione : Pianificazione
deriving DecidableEq, Repr, Inhabited

/-- `TurnoManager.GIORNI_FESTIVI`. -/
def GIORNI_FESTIVI : List (Nat × Nat) :=
  [(1, 1), (4, 20), (5, 1), (12, 25), (12, 26)]

/-- `TurnoManager.is_festivo`, phrased on the `(month, day)` pair of a date
of the planning month. -/
def is_festivo (mese giorno : Nat) : Bool :=
  GIORNI_FESTIVI.contains (mese, giorno)

/-- The day numbers of the month surviving the holiday filter, in loop
order (the `for giorno in range(1, num_giorni + 1)` loop of
`get_giorni_mese`). -/
def giorni_validi (anno mese : Nat) : List Nat :=
  (List.range' 1 (daysInMonth anno mese)).foldl
    (fun giorni g => if is_festivo mese g then giorni else giorni ++ [g]) []

/-- `TurnoManager.get_giorni_mese`: the working days of the month as date
ordinals, ascending. -/
def get_giorni_mese (anno mese : Nat) : List Nat :=
  (giorni_validi anno mese).map (toOrdinal anno mese)

/-- `TurnoManager._get_priorita_turno`: 1 only in the degenerate case where
the member worked the previous day and every catalog entry *is* (by object
identity, i.e. index equality) that previous shift. -/
def get_priorita_turno (nturni : Nat) (a : Addetto) (data : Nat) : Nat :=
  match a.turni_assegnati.lookup (data - 1) with
  | none => 0
  | some ultimo_turno =>
    if (List.range nturni).any (fun i => i != ultimo_turno) then 0 else 1

/-- The composite sort key of `pianifica_turni`:
`(a.get_ore_settimana(w), self._get_priorita_turno(a, data))`. -/
def chiave (addetti : List Addetto) (nturni num_settimana data i : Nat) :
    Int × Nat :=
  let a := addetti.getD i default
  (get_ore_settimana a num_settimana, get_priorita_turno nturni a data)

/-- Lexicographic `<` on the sort keys (Python tuple comparison). -/
def chiaveLt (k1 k2 : Int × Nat) : Bool :=
  k1.1 < k2.1 || (k1.1 == k2.1 && k1.2 < k2.2)

/-- Insert into an already (stably) sorted list, after every element whose
key is `≤` the inserted one. -/
def stableInsert (key : Nat → Int × Nat) (x : Nat) : List Nat → List Nat
  | [] => [x]
  | y :: ys => if chiaveLt (key x) (key y) then x :: y :: ys
               else y :: stableInsert key x ys

/-- Stable sort by key.  Python's `list.sort(key=...)` is stable, and the
stable ascending reordering of a list is unique, so this insertion sort and
Timsort produce the same list. -/
def stableSort (key : Nat → Int × Nat) (l : List Nat) : List Nat :=
  l.foldl (fun acc x => stableInsert key x acc) []

/-- `TurnoManager._scegli_turno_migliore` on a pool of catalog indices.
`turni[0]` for an empty pool is index `0` (the call sites guarantee the pool
is non-empty). -/
def scegli_turno_migliore (a : Addetto) (turni : List Nat) : Nat :=
  match turni with
  | [] => 0
  | t0 :: _ =>
    match a.turni_assegnati.getLast? with
    | none => t0
    | some ultimo =>
      match turni.find? (fun t => t != ultimo.2) with
      | some t => t
      | none => t0

/-- The loop body of `TurnoManager._seleziona_turni`: `pool` is
`turni_disponibili`, `nturni` the catalog size (the pool is refilled with
`List.range nturni`, a fresh copy of the catalog's index list). -/
def seleziona_giro (nturni : Nat) : List Nat → List Addetto → List Nat
  | _, [] => []
  | pool, a :: resto =>
    match pool with
    | p :: ps =>
      let turno := scegli_turno_migliore a (p :: ps)
      turno :: seleziona_giro nturni ((p :: ps).erase turno) resto
    | [] =>
      match List.range nturni with
      | [] => seleziona_giro nturni [] resto
      | t :: pool2 => t :: seleziona_giro nturni pool2 resto

/-- `TurnoManager._seleziona_turni`. -/
def seleziona_turni (nturni : Nat) (addetti : List Addetto) : List Nat :=
  seleziona_giro nturni (List.range nturni) addetti

/-- The `for addetto, turno in zip(disponibili, turni_da_assegnare)` loop of
`pianifica_turni`: sequentially assign, guarded by the weekly ceiling. -/
def assegna (turni : List Turno) (num_settimana data : Nat) :
    List (Nat × Nat) → List Addetto × Pianificazione → List Addetto × Pianificazione
  | [], st => st
  | (i, turno) :: resto, (addetti, piani) =>
    let a := addetti.getD i default
    let ore := (turni.getD turno default).ore
    if puo_aggiungere_ore_settimana a num_settimana ore then
      let a1 := { a with turni_assegnati := dictSet a.turni_assegnati data turno }
      let a2 := add_ore_settimana a1 num_settimana ore
      let piani1 := piani.map (fun e =>
        if e.1 = data then (e.1, innerSet e.2 a.nome turno) else e)
      assegna turni num_settimana data resto (addetti.set i a2, piani1)
    else
      assegna turni num_settimana data resto (addetti, piani)

/-- One iteration of the `for data in giorni` loop of `pianifica_turni`,
for the day number `g` of the planning month. -/
def processa_giorno (turni : List Turno) (anno mese g : Nat)
    (st : List Addetto × Pianificazione) : List Addetto × Pianificazione :=
  let addetti := st.1
  let data := toOrdinal anno mese g
  let num_settimana := isocalendarWeek anno mese g
  let disponibili := (List.range addetti.length).filter
    (fun i => puo_lavorare (addetti.getD i default) data)
  if disponibili = [] then st
  else
    let ordinati := stableSort (chiave addetti turni.length num_settimana data) disponibili
    let turni_da_assegnare :=
      seleziona_turni turni.length (ordinati.map (fun i => addetti.getD i default))
    assegna turni num_settimana data (ordinati.zip turni_da_assegnare) (addetti, st.2)

/-- The body of `pianifica_turni` past the configuration check: reset every
member's per-run state, initialise the Schedule with one empty entry per
working day, then run the day loop. -/
def pianifica_core (turni : List Turno) (anno mese : Nat) (addetti : List Addetto) :
    List Addetto × Pianificazione :=
  let giorni := giorni_validi anno mese
  let addetti0 := addetti.map reset_addetto
  let piani0 : Pianificazione := giorni.map (fun g => (toOrdinal anno mese g, []))
  giorni.foldl (fun st g => processa_giorno turni anno mese g st) (addetti0, piani0)

/-- `TurnoManager.pianifica_turni`.  The `Bool` is the Python return value
(`False` reports the configuration error). -/
def pianifica_turni (m : TurnoManager) : Bool × TurnoManager :=
  if m.addetti = [] ∨ m.turni = [] then (false, m)
  else
    let fin := pianifica_core m.turni m.anno m.mese m.addetti
    (true, { m with addetti := fin.1, pianificazione := fin.2 })

/-! ## Claim-faithful selection variant (for claim C3)

The spec describes the per-member pick in terms of `lastShiftBefore(d)` =
`assignments[d - 1 day]`.  The following engine variant follows those words;
it differs from the source, which uses the *most recently inserted*
assignment regardless of its date. -/

/-- Modelled from the claim's words: pick the first pool entry that differs
from `assignments[data - 1]`, falling back to the pool's first entry when no
assignment exists on `data - 1` or all pool entries equal it. -/
def scegli_turno_secondo_claim (a : Addetto) (data : Nat) (turni : List Nat) : Nat :=
  match turni with
  | [] => 0
  | t0 :: _ =>
    match a.turni_assegnati.lookup (data - 1) with
    | none => t0
    | some prev =>
      match turni.find? (fun t => t != prev) with
      | some t => t
      | none => t0

/-- `seleziona_giro` with the claim's pick rule. -/
def seleziona_giro_claim (nturni data : Nat) : List Nat → List Addetto → List Nat
  | _, [] => []
  | pool, a :: resto =>
    match pool with
    | p :: ps =>
      let turno := scegli_turno_secondo_claim a data (p :: ps)
      turno :: seleziona_giro_claim nturni data ((p :: ps).erase turno) resto
    | [] =>
      match List.range nturni with
      | [] => seleziona_giro_claim nturni data [] resto
      | t :: pool2 => t :: seleziona_giro_claim nturni data pool2 resto

/-- `processa_giorno` with the claim's pick rule. -/
def processa_giorno_claim (turni : List Turno) (anno mese g : Nat)
    (st : List Addetto × Pianificazione) : List Addetto × Pianificazione :=
  let addetti := st.1
  let data := toOrdinal anno mese g
  let num_settimana := isocalendarWeek anno mese g
  let disponibili := (List.range addetti.length).filter
    (fun i => puo_lavorare (addetti.getD i default) data)
  if disponibili = [] then st
  else
    let ordinati := stableSort (chiave addetti turni.length num_settimana data) disponibili
    let turni_da_assegnare :=
      seleziona_giro_claim turni.length data (List.range turni.length)
        (ordinati.map (fun i => addetti.getD i default))
    assegna turni num_settimana data (ordinati.zip turni_da_assegnare) (addetti, st.2)

/-- `pianifica_turni` with the claim's pick rule. -/
def pianifica_turni_claim (m : TurnoManager) : Bool × TurnoManager :=
  if m.addetti = [] ∨ m.turni = [] then (false, m)
  else
    let giorni := giorni_validi m.anno m.mese
    let addetti0 := m.addetti.map reset_addetto
    let piani0 : Pianificazione :=
      giorni.map (fun g => (toOrdinal m.anno m.mese g, []))
    let fin := giorni.foldl
      (fun st g => processa_giorno_claim m.turni m.anno m.mese g st) (addetti0, piani0)
    (true, { m with addetti := fin.1, pianificazione := fin.2 })

/-- The member's most recently assigned shift: the last value of the
insertion-ordered assignment map (what the source actually consults). -/
def ultimo_turno_assegnato (a : Addetto) : Option Nat :=
  (a.turni_assegnati.map (fun p => p.2)).getLast?

/-- The amended pick rule of claim C3, stated from its English description:
first pool entry differing from the most recently assigned shift, falling
back to the pool's first entry when the member has no assignments at all or
every pool entry equals that shift. -/
def scelta_descritta (a : Addetto) (turni : List Nat) : Nat :=
  match ultimo_turno_assegnato a with
  | none => turni.headD 0
  | some u => (turni.find? (fun t => t != u)).getD (turni.headD 0)

/-! ## Concrete instances used by counterexamples and witnesses -/

/-- A member who works only Sundays and Tuesdays (rest on the other five
weekdays), maximum 100 hours/week. -/
def addettoSeiTu : Addetto := ⟨"A", 0, 6000, false, [0, 2, 3, 4, 5], [], [], []⟩

/-- June 2025, one member working Sundays and Tuesdays, two 6-hour shifts. -/
def mgrGiugno : TurnoManager :=
  ⟨[addettoSeiTu],
   [⟨"X", "09:00", "15:00", 360⟩, ⟨"Y", "15:00", "21:00", 360⟩],
   6, 2025, []⟩

/-- A manager with an empty roster (for the configuration-error path). -/
def mgrVuoto : TurnoManager :=
  ⟨[], [⟨"X", "09:00", "15:00", 360⟩], 6, 2025, []⟩

/-- A member whose weekly ceiling (6 hours = 360 sixtieths) is below the only
configured shift's duration. -/
def addettoLimitato : Addetto := ⟨"L", 0, 360, false, [], [], [], []⟩

/-- June 2025, one member with ceiling 6h, one 8-hour night shift: nobody can
ever be scheduled. -/
def mgrLimitato : TurnoManager :=
  ⟨[addettoLimitato], [⟨"N", "22:00", "06:00", 480⟩], 6, 2025, []⟩

/-- A member with a negative weekly ceiling (Python accepts any int here). -/
def addettoNegativo : Addetto := ⟨"N", 0, -60, false, [], [], [], []⟩

/-- June 2025 with the negative-ceiling member and one 6-hour shift. -/
def mgrNegativo : TurnoManager :=
  ⟨[addettoNegativo], [⟨"X", "09:00", "15:00", 360⟩], 6, 2025, []⟩

/-- Every member's ledger value respects their weekly ceiling, in every
ISO week (weeks never worked read as 0). -/
def TettoOk (l : List Addetto) : Prop :=
  ∀ a ∈ l, ∀ w : Nat, get_ore_settimana a w ≤ a.ore_max_settimanale

/-- The Schedule cell for date `d` and member name `nm`:
`pianificazione[d][nm]` when both keys are present. -/
def cerca_assegnazione (p : Pianificazione) (d : Nat) (nm : String) : Option Nat :=
  match p.lookup d with
  | none => none
  | some e => e.lookup nm

/-- A member named like `addettoDoppione` but resting on Mondays. -/
def addettoRiposoLunedi : Addetto := ⟨"X", 0, 6000, false, [0], [], [], []⟩

/-- A member with the same display name as `addettoRiposoLunedi` and no
constraints. -/
def addettoDoppione : Addetto := ⟨"X", 0, 6000, false, [], [], [], []⟩

/-- June 2025 with two same-named members (the engine never enforces name
uniqueness) and one 6-hour shift. -/
def mgrDoppione : TurnoManager :=
  ⟨[addettoRiposoLunedi, addettoDoppione], [⟨"T", "09:00", "15:00", 360⟩], 6, 2025, []⟩

/-- June 2025, two unconstrained members both named "X", two 6-hour shifts. -/
def mgrDoppioneDue : TurnoManager :=
  ⟨[addettoDoppione, addettoDoppione],
   [⟨"X", "09:00", "15:00", 360⟩, ⟨"Y", "15:00", "21:00", 360⟩], 6, 2025, []⟩

/-- The day-of-month of an ordinal that denotes a date of month `mese` of
year `anno` (the inverse of `toOrdinal` on that month). -/
def giornoDellOrdinale (anno mese o : Nat) : Nat :=
  o - (daysBeforeYear anno + daysBeforeMonth anno mese)

/-- The ISO week of a date of the planning month, given by its ordinal. -/
def settimanaInMese (anno mese o : Nat) : Nat :=
  isocalendarWeek anno mese (giornoDellOrdinale anno mese o)

/-- Total duration (in sixtieths of an hour) of the shifts of an assignment
map whose dates fall in ISO week `w`. -/
def ore_in_settimana (turni : List Turno) (anno mese : Nat)
    (ass : List (Nat × Nat)) (w : Nat) : Int :=
  ((ass.filter (fun p => settimanaInMese anno mese p.1 == w)).map
    (fun p => (turni.getD p.2 default).ore)).sum

/-- Two rosters agree position by position on all constant member data
(name, contract and ceiling hours, overtime flag, rest days, absences); in
particular they have the same length. -/
def stessiStatici (l1 l2 : List Addetto) : Prop :=
  ∀ k : Nat, (l1[k]?).map Addetto.statico = (l2[k]?).map Addetto.statico

/-! # Theorems -/

/-! ## Generic lemmas about the embedded operations -/

theorem foldl_append_filter (p : Nat → Bool) :
    ∀ (l acc : List Nat),
      l.foldl (fun giorni g => if p g then giorni else giorni ++ [g]) acc
        = acc ++ l.filter (fun g => !p g) := by
  intro l
  induction l with
  | nil => intro acc; simp
  | cons g t ih =>
    intro acc
    by_cases hp : p g = true <;> simp [List.foldl_cons, hp, ih]

theorem giorni_validi_eq_filter (anno mese : Nat) :
    giorni_validi anno mese
      = (List.range' 1 (daysInMonth anno mese)).filter (fun g => !is_festivo mese g) := by
  simpa [giorni_validi] using
    foldl_append_filter (is_festivo mese) (List.range' 1 (daysInMonth anno mese)) []

theorem get_giorni_mese_chain (anno mese : Nat) :
    List.Chain' (· < ·) (get_giorni_mese anno mese) := by
  rw [List.chain'_iff_pairwise, get_giorni_mese, giorni_validi_eq_filter]
  refine List.Pairwise.map _ (fun a b hab => ?_)
    (List.Pairwise.filter _ (List.pairwise_lt_range' 1 (daysInMonth anno mese)))
  simp only [toOrdinal]
  omega

theorem mem_get_giorni_mese (anno mese g : Nat) :
    toOrdinal anno mese g ∈ get_giorni_mese anno mese
      ↔ 1 ≤ g ∧ g ≤ daysInMonth anno mese ∧ is_festivo mese g = false := by
  rw [get_giorni_mese, giorni_validi_eq_filter]
  constructor
  · intro h
    rcases List.mem_map.mp h with ⟨g2, hg2, hord⟩
    rcases List.mem_filter.mp hg2 with ⟨hrange, hfest⟩
    rcases List.mem_range'_1.mp hrange with ⟨h1, h2⟩
    have : g2 = g := by
      simp only [toOrdinal] at hord
      omega
    subst this
    exact ⟨h1, by omega, by simpa using hfest⟩
  · intro ⟨h1, h2, h3⟩
    refine List.mem_map.mpr ⟨g, List.mem_filter.mpr ⟨List.mem_range'_1.mpr ⟨h1, by omega⟩, ?_⟩, rfl⟩
    simp [h3]

/-! ## Claim C5: `get_giorni_mese` enumerates the month minus fixed holidays -/

/-- C5.  For every year and month, the eligible days are exactly the calendar
days of the month whose `(month, day)` pair is not one of the five fixed
holidays, in strictly ascending date order; concretely, January 2025 drops
Jan 1 but keeps every Sunday. -/
theorem claim_C5_giorni_mese :
    (∀ anno mese : Nat,
        giorni_validi anno mese
            = (List.range' 1 (daysInMonth anno mese)).filter (fun g => !is_festivo mese g)
          ∧ List.Chain' (· < ·) (get_giorni_mese anno mese)
          ∧ ∀ g : Nat, toOrdinal anno mese g ∈ get_giorni_mese anno mese
              ↔ 1 ≤ g ∧ g ≤ daysInMonth anno mese ∧ is_festivo mese g = false)
    ∧ toOrdinal 2025 1 1 ∉ get_giorni_mese 2025 1
    ∧ ∀ g ∈ List.range' 1 31, pyWeekday (toOrdinal 2025 1 g) = 6
        → toOrdinal 2025 1 g ∈ get_giorni_mese 2025 1 := by
  refine ⟨fun anno mese => ⟨giorni_validi_eq_filter anno mese,
    get_giorni_mese_chain anno mese, fun g => mem_get_giorni_mese anno mese g⟩, ?_, ?_⟩
  · decide
  · decide

/-! ## Claim C6: empty roster or catalog fails and leaves the state alone -/

/-- C6.  With an empty roster or an empty shift catalog, `pianifica_turni`
reports failure and the manager — its Schedule and every member's per-run
state included — is returned unchanged. -/
theorem claim_C6_configurazione_vuota (m : TurnoManager)
    (h : m.addetti = [] ∨ m.turni = []) :
    pianifica_turni m = (false, m) := by
  simp only [pianifica_turni, if_pos h]

theorem claim_C6_configurazione_vuota_witness :
    (mgrVuoto.addetti = [] ∨ mgrVuoto.turni = [])
      ∧ pianifica_turni mgrVuoto = (false, mgrVuoto) :=
  ⟨Or.inl rfl, claim_C6_configurazione_vuota mgrVuoto (Or.inl rfl)⟩

/-! ## Claim C7: shift duration formula -/

/-- C7.  A shift built from valid `HH:MM` strings stores, once and for all,
the duration `end - start` (in sixtieths of an hour), where `end` is first
bumped by 24 hours when it is smaller than `start` (midnight crossing). -/
theorem claim_C7_durata_turno (nome s1 s2 : String) (h1 m1 h2 m2 : Nat)
    (hp1 : parseHM s1 = some (h1, m1)) (hp2 : parseHM s2 = some (h2, m2)) :
    mkTurno nome s1 s2 = some
      { nome := nome, ora_inizio := s1, ora_fine := s2,
        ore := (if 60 * (h2 : Int) + (m2 : Int) < 60 * (h1 : Int) + (m1 : Int)
                then 60 * (h2 : Int) + (m2 : Int) + 24 * 60
                else 60 * (h2 : Int) + (m2 : Int)) - (60 * (h1 : Int) + (m1 : Int)) } := by
  simp only [mkTurno, hp1, hp2, Option.some.injEq, Turno.mk.injEq, true_and]
  simp only [calcola_ore]
  by_cases h : 60 * (h2 : Int) + (m2 : Int) < 60 * (h1 : Int) + (m1 : Int) <;>
    simp [h]

theorem claim_C7_durata_turno_witness :
    parseHM "08:00" = some (8, 0) ∧ parseHM "22:00" = some (22, 0)
      ∧ (mkTurno "Mattina" "08:00" "14:00").map Turno.ore = some (6 * 60)
      ∧ (mkTurno "Notte" "22:00" "06:00").map Turno.ore = some (8 * 60) := by
  refine ⟨by decide, by decide, ?_, ?_⟩
  · rw [claim_C7_durata_turno "Mattina" "08:00" "14:00" 8 0 14 0 (by decide) (by decide)]
    decide
  · rw [claim_C7_durata_turno "Notte" "22:00" "06:00" 22 0 6 0 (by decide) (by decide)]
    decide

/-! ## Claim C4: the selector serves every available member -/

theorem seleziona_giro_length (nturni : Nat) (hn : nturni ≠ 0) :
    ∀ (resto : List Addetto) (pool : List Nat),
      (seleziona_giro nturni pool resto).length = resto.length := by
  intro resto
  induction resto with
  | nil => intro pool; cases pool <;> rfl
  | cons a resto ih =>
    intro pool
    cases pool with
    | cons p ps => simp [seleziona_giro, ih]
    | nil =>
      rcases hr : List.range nturni with _ | ⟨t, pool2⟩
      · exact absurd (List.range_eq_nil.mp hr) hn
      · simp [seleziona_giro, hr, ih]

/-- C4.  With a non-empty catalog, `_seleziona_turni` returns exactly one
candidate shift per available member, refilling the pool as needed. -/
theorem claim_C4_seleziona_turni_lunghezza (turni : List Turno) (addetti : List Addetto)
    (h : turni ≠ []) :
    (seleziona_turni turni.length addetti).length = addetti.length := by
  have hn : turni.length ≠ 0 := by simpa using h
  exact seleziona_giro_length _ hn addetti _

theorem claim_C4_seleziona_turni_lunghezza_witness :
    mgrGiugno.turni ≠ []
      ∧ (seleziona_turni mgrGiugno.turni.length
          [addettoSeiTu, addettoSeiTu, addettoSeiTu]).length = 3 :=
  ⟨by decide,
    claim_C4_seleziona_turni_lunghezza mgrGiugno.turni
      [addettoSeiTu, addettoSeiTu, addettoSeiTu] (by decide)⟩

/-! ## Claim C3: which shift the pick rule consults

The claim (and the spec) say the pick avoids `assignments[d - 1 day]`.  The
source (`_scegli_turno_migliore`) instead avoids the *most recently
inserted* assignment, whatever its date: `list(turni_assegnati.values())[-1]`.
The two differ as soon as a member worked on some earlier day but not on
`d - 1` (rest day, absence, holiday or a skipped day).  `mgrGiugno`
realises this: its member works June 1 (Sunday) and June 3 (Tuesday) 2025;
on June 3 the source avoids the June 1 shift and picks shift 1, while the
claim's rule finds no assignment on June 2 and falls back to the pool's
first entry, shift 0. -/

/-- C3 counterexample: on June 3 the real engine and the claim-faithful
engine produce different Schedule entries, and the two pick rules differ on
the very member state the run reaches (ledger `{22: 360}`, assignments
`{June 1 ↦ 0}`). -/
theorem claim_C3_counterexample :
    (pianifica_turni mgrGiugno).1 = true
      ∧ (pianifica_turni mgrGiugno).2.pianificazione.lookup (toOrdinal 2025 6 3)
          = some [("A", 1)]
      ∧ (pianifica_turni_claim mgrGiugno).2.pianificazione.lookup (toOrdinal 2025 6 3)
          = some [("A", 0)]
      ∧ scegli_turno_migliore
          ⟨"A", 0, 6000, false, [0, 2, 3, 4, 5], [], [(22, 360)], [(toOrdinal 2025 6 1, 0)]⟩
          [0, 1] = 1
      ∧ scegli_turno_secondo_claim
          ⟨"A", 0, 6000, false, [0, 2, 3, 4, 5], [], [(22, 360)], [(toOrdinal 2025 6 1, 0)]⟩
          (toOrdinal 2025 6 3) [0, 1] = 0 := by
  refine ⟨by decide, by decide, by decide, by decide, by decide⟩

/-- C3 amended.  For every member served from a non-empty pool, the pick is
the first pool entry that differs from the member's *most recently assigned*
shift (the last value of the insertion-ordered assignment map, not the
`d - 1` lookup), falling back to the pool's first entry when the member has
no assignments at all or every pool entry equals that shift. -/
theorem claim_C3_scelta_turno_amended (a : Addetto) (turni : List Nat) (h : turni ≠ []) :
    scegli_turno_migliore a turni = scelta_descritta a turni := by
  cases turni with
  | nil => exact absurd rfl h
  | cons t0 ts =>
    have hmap : (a.turni_assegnati.map (fun p => p.2)).getLast?
        = (a.turni_assegnati.getLast?).map (fun p => p.2) :=
      List.getLast?_map _ a.turni_assegnati
    cases hl : a.turni_assegnati.getLast? with
    | none =>
      simp [scegli_turno_migliore, scelta_descritta, ultimo_turno_assegnato, hl, hmap]
    | some p =>
      simp only [scegli_turno_migliore, scelta_descritta, ultimo_turno_assegnato, hl, hmap,
        Option.map_some, List.headD_cons]
      cases hf : (t0 :: ts).find? (fun t => t != p.2) <;> simp [hf]

theorem claim_C3_scelta_turno_amended_witness :
    ([0, 1] : List Nat) ≠ []
      ∧ scegli_turno_migliore addettoSeiTu [0, 1] = scelta_descritta addettoSeiTu [0, 1] :=
  ⟨by decide, claim_C3_scelta_turno_amended addettoSeiTu [0, 1] (by decide)⟩

/-! ## Static member data survives a run -/

theorem stessiStatici_refl (l : List Addetto) : stessiStatici l l := fun _ => rfl

theorem stessiStatici_trans {l1 l2 l3 : List Addetto}
    (h12 : stessiStatici l1 l2) (h23 : stessiStatici l2 l3) : stessiStatici l1 l3 :=
  fun k => (h12 k).trans (h23 k)

theorem stessiStatici_length {l1 l2 : List Addetto} (h : stessiStatici l1 l2) :
    l1.length = l2.length := by
  by_contra hne
  rcases Nat.lt_or_ge l1.length l2.length with hlt | hge
  · have h1 : l1[l1.length]? = none := List.getElem?_eq_none (Nat.le_refl _)
    have h2 : l2[l1.length]? = some (l2[l1.length]) := List.getElem?_eq_getElem hlt
    have h3 := h l1.length
    rw [h1, h2] at h3
    simp at h3
  · have hlt2 : l2.length < l1.length := by omega
    have h1 : l2[l2.length]? = none := List.getElem?_eq_none (Nat.le_refl _)
    have h2 : l1[l2.length]? = some (l1[l2.length]) := List.getElem?_eq_getElem hlt2
    have h3 := h l2.length
    rw [h1, h2] at h3
    simp at h3

theorem getD_default_eq_getElem (l : List Addetto) (i : Nat) (h : i < l.length) :
    l.getD i default = l[i] := by
  rw [List.getD_eq_getElem?_getD, List.getElem?_eq_getElem h]
  rfl

theorem assegna_stessiStatici (turni : List Turno) (w data : Nat) :
    ∀ (coppie : List (Nat × Nat)) (st : List Addetto × Pianificazione),
      stessiStatici (assegna turni w data coppie st).1 st.1 := by
  intro coppie
  induction coppie with
  | nil => intro st; exact stessiStatici_refl _
  | cons c resto ih =>
    rintro ⟨addetti, piani⟩
    obtain ⟨i, turno⟩ := c
    simp only [assegna]
    split
    · refine stessiStatici_trans (ih _) ?_
      intro k
      simp only
      rw [List.getElem?_set]
      by_cases hik : i = k
      · subst hik
        by_cases hlen : i < addetti.length
        · rw [if_pos rfl, if_pos hlen, List.getElem?_eq_getElem hlen]
          have hgd : addetti.getD i default = addetti[i] :=
            getD_default_eq_getElem addetti i hlen
          rw [← hgd]
          rfl
        · rw [if_pos rfl, if_neg hlen, List.getElem?_eq_none (by omega)]
      · rw [if_neg hik]
    · exact ih _

theorem processa_giorno_stessiStatici (turni : List Turno) (anno mese g : Nat)
    (st : List Addetto × Pianificazione) :
    stessiStatici (processa_giorno turni anno mese g st).1 st.1 := by
  simp only [processa_giorno]
  split
  · exact stessiStatici_refl _
  · exact assegna_stessiStatici _ _ _ _ _

theorem foldl_processa_stessiStatici (turni : List Turno) (anno mese : Nat) :
    ∀ (giorni : List Nat) (st : List Addetto × Pianificazione),
      stessiStatici
        (giorni.foldl (fun st g => processa_giorno turni anno mese g st) st).1 st.1 := by
  intro giorni
  induction giorni with
  | nil => intro st; exact stessiStatici_refl _
  | cons g rest ih =>
    intro st
    simp only [List.foldl_cons]
    exact stessiStatici_trans (ih _) (processa_giorno_stessiStatici turni anno mese g st)

theorem stessiStatici_map_reset (l : List Addetto) :
    stessiStatici (l.map reset_addetto) l := by
  intro k
  rw [List.getElem?_map]
  cases l[k]? <;> rfl

theorem pianifica_core_stessiStatici (turni : List Turno) (anno mese : Nat)
    (addetti : List Addetto) :
    stessiStatici (pianifica_core turni anno mese addetti).1 addetti := by
  refine stessiStatici_trans ?_ (stessiStatici_map_reset addetti)
  exact foldl_processa_stessiStatici turni anno mese _ _

/-- `reset_addetto` only looks at the constant data. -/
theorem reset_addetto_congr {a b : Addetto} (h : a.statico = b.statico) :
    reset_addetto a = reset_addetto b := by
  obtain ⟨n1, c1, mx1, s1, r1, f1, o1, t1⟩ := a
  obtain ⟨n2, c2, mx2, s2, r2, f2, o2, t2⟩ := b
  simp only [Addetto.statico, Prod.mk.injEq] at h
  obtain ⟨h1, h2, h3, h4, h5, h6⟩ := h
  simp [reset_addetto, h1, h2, h3, h4, h5, h6]

theorem map_reset_congr {l1 l2 : List Addetto} (h : stessiStatici l1 l2) :
    l1.map reset_addetto = l2.map reset_addetto := by
  apply List.ext_get?_iff.mpr
  intro n
  rw [List.get?_eq_getElem?, List.get?_eq_getElem?, List.getElem?_map, List.getElem?_map]
  have hn := h n
  cases h1 : l1[n]? with
  | none =>
    rw [h1] at hn
    cases h2 : l2[n]? with
    | none => rfl
    | some b => rw [h2] at hn; simp at hn
  | some a =>
    rw [h1] at hn
    cases h2 : l2[n]? with
    | none => rw [h2] at hn; simp at hn
    | some b =>
      rw [h2] at hn
      simp at hn ⊢
      exact reset_addetto_congr hn

/-- The configuration-error path of `pianifica_turni`. -/
theorem pianifica_turni_vuota (m : TurnoManager) (h : m.addetti = [] ∨ m.turni = []) :
    pianifica_turni m = (false, m) := by
  simp only [pianifica_turni, if_pos h]

/-! ## The Schedule's keys are exactly the working days -/

theorem assegna_chiavi (turni : List Turno) (w data : Nat) :
    ∀ (coppie : List (Nat × Nat)) (st : List Addetto × Pianificazione),
      ((assegna turni w data coppie st).2).map Prod.fst = (st.2).map Prod.fst := by
  intro coppie
  induction coppie with
  | nil => intro st; rfl
  | cons c resto ih =>
    rintro ⟨addetti, piani⟩
    obtain ⟨i, turno⟩ := c
    simp only [assegna]
    split
    · rw [ih _]
      simp only [List.map_map]
      apply List.map_congr_left
      intro e _
      by_cases he : e.1 = data <;> simp [he]
    · exact ih _

theorem processa_giorno_chiavi (turni : List Turno) (anno mese g : Nat)
    (st : List Addetto × Pianificazione) :
    ((processa_giorno turni anno mese g st).2).map Prod.fst = (st.2).map Prod.fst := by
  simp only [processa_giorno]
  split
  · rfl
  · exact assegna_chiavi _ _ _ _ _

theorem foldl_processa_chiavi (turni : List Turno) (anno mese : Nat) :
    ∀ (giorni : List Nat) (st : List Addetto × Pianificazione),
      ((giorni.foldl (fun st g => processa_giorno turni anno mese g st) st).2).map Prod.fst
        = (st.2).map Prod.fst := by
  intro giorni
  induction giorni with
  | nil => intro st; rfl
  | cons g rest ih =>
    intro st
    simp only [List.foldl_cons]
    rw [ih _, processa_giorno_chiavi]

theorem pianifica_core_chiavi (turni : List Turno) (anno mese : Nat)
    (addetti : List Addetto) :
    ((pianifica_core turni anno mese addetti).2).map Prod.fst
      = get_giorni_mese anno mese := by
  simp only [pianifica_core]
  rw [foldl_processa_chiavi]
  simp [get_giorni_mese, List.map_map, Function.comp]

theorem lookup_of_mem_chiavi :
    ∀ (p : Pianificazione) (o : Nat), o ∈ p.map Prod.fst → ∃ e, p.lookup o = some e := by
  intro p
  induction p with
  | nil => intro o ho; simp at ho
  | cons kv resto ih =>
    intro o ho
    obtain ⟨k, v⟩ := kv
    rcases List.mem_cons.mp ho with h | h
    · refine ⟨v, ?_⟩
      simp only [List.lookup]
      have : (o == k) = true := by simpa using h
      rw [this]
    · by_cases hk : o = k
      · exact ⟨v, by simp [List.lookup, hk]⟩
      · obtain ⟨e, he⟩ := ih o h
        refine ⟨e, ?_⟩
        simp only [List.lookup]
        have : (o == k) = false := by simpa using hk
        rw [this]
        exact he

/-! ## Claim C8: re-running reproduces the same result -/

/-- C8.  `pianifica_turni` is idempotent on the manager: a second run on the
result of a first run reproduces the same Schedule (indeed the same manager
and return flag), because the run resets all per-member state and depends
only on the members' constant data, catalog, month and year. -/
theorem claim_C8_idempotenza (m : TurnoManager) :
    pianifica_turni (pianifica_turni m).2 = pianifica_turni m := by
  by_cases h : m.addetti = [] ∨ m.turni = []
  · have hv := pianifica_turni_vuota m h
    rw [hv]
    exact hv
  · have hrun : pianifica_turni m =
        (true, { m with addetti := (pianifica_core m.turni m.anno m.mese m.addetti).1,
                        pianificazione := (pianifica_core m.turni m.anno m.mese m.addetti).2 }) := by
      simp only [pianifica_turni, if_neg h]
    rw [hrun]
    have hstat : stessiStatici (pianifica_core m.turni m.anno m.mese m.addetti).1 m.addetti :=
      pianifica_core_stessiStatici m.turni m.anno m.mese m.addetti
    have hlen : (pianifica_core m.turni m.anno m.mese m.addetti).1.length
        = m.addetti.length := stessiStatici_length hstat
    have hne2 : ¬((pianifica_core m.turni m.anno m.mese m.addetti).1 = [] ∨ m.turni = []) := by
      push_neg at h ⊢
      refine ⟨?_, h.2⟩
      intro hnil
      apply h.1
      have : m.addetti.length = 0 := by rw [← hlen, hnil]; rfl
      exact List.length_eq_zero.mp this
    have hcore : pianifica_core m.turni m.anno m.mese
          (pianifica_core m.turni m.anno m.mese m.addetti).1
        = pianifica_core m.turni m.anno m.mese m.addetti := by
      have hmr := map_reset_congr hstat
      simp only [pianifica_core] at hmr ⊢
      rw [hmr]
    simp only [pianifica_turni, if_neg hne2, hcore]

/-! ## Claim C9: a valid configuration always completes -/

/-- C9.  With a non-empty roster and catalog the run reports success (the
embedding is total — no partial operation is ever reached, mirroring that the
Python loop raises nothing) and the resulting Schedule has an entry — possibly
empty — for every working day of the month. -/
theorem claim_C9_esecuzione_totale (m : TurnoManager)
    (h1 : m.addetti ≠ []) (h2 : m.turni ≠ []) :
    (pianifica_turni m).1 = true
      ∧ ∀ o ∈ get_giorni_mese m.anno m.mese,
          ∃ e, (pianifica_turni m).2.pianificazione.lookup o = some e := by
  have hcond : ¬(m.addetti = [] ∨ m.turni = []) := by
    push_neg
    exact ⟨h1, h2⟩
  constructor
  · simp [pianifica_turni, if_neg hcond]
  · intro o ho
    have hkeys : (pianifica_turni m).2.pianificazione.map Prod.fst
        = get_giorni_mese m.anno m.mese := by
      simp only [pianifica_turni, if_neg hcond]
      exact pianifica_core_chiavi m.turni m.anno m.mese m.addetti
    exact lookup_of_mem_chiavi _ o (hkeys ▸ ho)

/-! ## The weekly-ledger operations -/

theorem lookup_dictAdd_self :
    ∀ (l : List (Nat × Int)) (w : Nat) (o : Int),
      (dictAdd l w o).lookup w = some ((l.lookup w).getD 0 + o) := by
  intro l
  induction l with
  | nil => intro w o; simp [dictAdd, List.lookup]
  | cons kv t ih =>
    intro w o
    obtain ⟨k, v⟩ := kv
    by_cases hk : k = w
    · subst hk
      simp [dictAdd, List.lookup]
    · have hbeq : (w == k) = false := by
        simp [Ne.symm hk]
      simp only [dictAdd, if_neg hk, List.lookup, hbeq]
      exact ih w o

theorem lookup_dictAdd_other :
    ∀ (l : List (Nat × Int)) (w w' : Nat) (o : Int), w' ≠ w →
      (dictAdd l w o).lookup w' = l.lookup w' := by
  intro l
  induction l with
  | nil =>
    intro w w' o hne
    have hbeq : (w' == w) = false := by simp [hne]
    simp [dictAdd, List.lookup, hbeq]
  | cons kv t ih =>
    intro w w' o hne
    obtain ⟨k, v⟩ := kv
    by_cases hk : k = w
    · subst hk
      have hbeq : (w' == k) = false := by simp [hne]
      simp [dictAdd, List.lookup, hbeq]
    · simp only [dictAdd, if_neg hk, List.lookup]
      by_cases hk2 : w' = k
      · simp [hk2]
      · have hbeq : (w' == k) = false := by simp [hk2]
        simp only [hbeq, cond_false]
        exact ih w w' o hne

theorem get_ore_add_self (a : Addetto) (w : Nat) (o : Int) :
    get_ore_settimana (add_ore_settimana a w o) w = get_ore_settimana a w + o := by
  simp [get_ore_settimana, add_ore_settimana, lookup_dictAdd_self]

theorem get_ore_add_other (a : Addetto) (w w' : Nat) (o : Int) (h : w' ≠ w) :
    get_ore_settimana (add_ore_settimana a w o) w' = get_ore_settimana a w' := by
  simp [get_ore_settimana, add_ore_settimana, lookup_dictAdd_other _ _ _ _ h]

theorem tetto_default (w : Nat) :
    get_ore_settimana (default : Addetto) w ≤ (default : Addetto).ore_max_settimanale := by
  simp [get_ore_settimana, default, List.lookup]

/-! ## Claim C1: the weekly ceiling invariant -/

theorem assegna_tetto (turni : List Turno) (w data : Nat) :
    ∀ (coppie : List (Nat × Nat)) (st : List Addetto × Pianificazione),
      TettoOk st.1 → TettoOk (assegna turni w data coppie st).1 := by
  intro coppie
  induction coppie with
  | nil => intro st h; exact h
  | cons c resto ih =>
    rintro ⟨addetti, piani⟩ h
    obtain ⟨i, turno⟩ := c
    simp only [assegna]
    split
    next hguard =>
      apply ih
      intro a ha w'
      rcases List.mem_or_eq_of_mem_set ha with hmem | heq
      · exact h a hmem w'
      · subst heq
        have hb : ∀ w', get_ore_settimana (addetti.getD i default) w'
            ≤ (addetti.getD i default).ore_max_settimanale := by
          by_cases hlen : i < addetti.length
          · rw [getD_default_eq_getElem _ _ hlen]
            exact h _ (List.getElem_mem hlen)
          · rw [List.getD_eq_getElem?_getD, List.getElem?_eq_none (by omega)]
            exact fun w' => tetto_default w'
        have hguard' : get_ore_settimana (addetti.getD i default) w
            + (turni.getD turno default).ore
            ≤ (addetti.getD i default).ore_max_settimanale := by
          simpa [puo_aggiungere_ore_settimana] using hguard
        by_cases hw : w' = w
        · subst hw
          rw [get_ore_add_self]
          exact hguard'
        · rw [get_ore_add_other _ _ _ _ hw]
          exact hb w'
    next => exact ih _ h

theorem processa_giorno_tetto (turni : List Turno) (anno mese g : Nat)
    (st : List Addetto × Pianificazione) (h : TettoOk st.1) :
    TettoOk (processa_giorno turni anno mese g st).1 := by
  simp only [processa_giorno]
  split
  · exact h
  · exact assegna_tetto _ _ _ _ _ h

theorem foldl_processa_tetto (turni : List Turno) (anno mese : Nat) :
    ∀ (giorni : List Nat) (st : List Addetto × Pianificazione), TettoOk st.1 →
      TettoOk ((giorni.foldl (fun st g => processa_giorno turni anno mese g st) st).1) := by
  intro giorni
  induction giorni with
  | nil => intro st h; exact h
  | cons g rest ih =>
    intro st h
    simp only [List.foldl_cons]
    exact ih _ (processa_giorno_tetto turni anno mese g st h)

theorem reset_tetto (l : List Addetto) (h : ∀ a ∈ l, 0 ≤ a.ore_max_settimanale) :
    TettoOk (l.map reset_addetto) := by
  intro a ha w
  rcases List.mem_map.mp ha with ⟨b, hb, rfl⟩
  have : get_ore_settimana (reset_addetto b) w = 0 := by
    simp [get_ore_settimana, reset_addetto, List.lookup]
  rw [this]
  exact h b hb

/-- C1 counterexample: a roster is allowed to carry a negative weekly
ceiling (no validation exists in the source); the run completes, the ledger
stays empty, and the 0 hours read for any week exceed the ceiling. -/
theorem claim_C1_counterexample :
    (pianifica_turni mgrNegativo).1 = true
      ∧ (pianifica_turni mgrNegativo).2.addetti.getD 0 default
          ∈ (pianifica_turni mgrNegativo).2.addetti
      ∧ ¬(get_ore_settimana ((pianifica_turni mgrNegativo).2.addetti.getD 0 default) 23
            ≤ ((pianifica_turni mgrNegativo).2.addetti.getD 0 default).ore_max_settimanale) :=
  ⟨by decide, by decide, by decide⟩

/-- C1 amended.  For every roster whose members all have a *nonnegative*
weekly ceiling (what the spec's construction-time validation is meant to
guarantee), a completed run leaves every member's hours in every ISO week at
or below their ceiling. -/
theorem claim_C1_tetto_settimanale (m : TurnoManager)
    (hmax : ∀ a ∈ m.addetti, 0 ≤ a.ore_max_settimanale)
    (hsucc : (pianifica_turni m).1 = true) :
    ∀ a ∈ (pianifica_turni m).2.addetti, ∀ w : Nat,
      get_ore_settimana a w ≤ a.ore_max_settimanale := by
  by_cases h : m.addetti = [] ∨ m.turni = []
  · rw [pianifica_turni_vuota m h] at hsucc
    simp at hsucc
  · have hres : (pianifica_turni m).2.addetti
        = (pianifica_core m.turni m.anno m.mese m.addetti).1 := by
      simp only [pianifica_turni, if_neg h]
    rw [hres]
    simp only [pianifica_core]
    exact foldl_processa_tetto m.turni m.anno m.mese _ _ (reset_tetto m.addetti hmax)

theorem claim_C1_tetto_settimanale_witness :
    (∀ a ∈ mgrGiugno.addetti, 0 ≤ a.ore_max_settimanale)
      ∧ (pianifica_turni mgrGiugno).1 = true
      ∧ ∀ a ∈ (pianifica_turni mgrGiugno).2.addetti, ∀ w : Nat,
          get_ore_settimana a w ≤ a.ore_max_settimanale :=
  ⟨by decide, by decide,
    claim_C1_tetto_settimanale mgrGiugno (by decide) (by decide)⟩

/-- Witness: the claim's starvation scenario — ceiling 6h, single 8h shift —
completes with an *empty* entry on every working day of June 2025. -/
theorem claim_C9_esecuzione_totale_witness :
    mgrLimitato.addetti ≠ [] ∧ mgrLimitato.turni ≠ []
      ∧ ((pianifica_turni mgrLimitato).1 = true
          ∧ ∀ o ∈ get_giorni_mese mgrLimitato.anno mgrLimitato.mese,
              ∃ e, (pianifica_turni mgrLimitato).2.pianificazione.lookup o = some e)
      ∧ ∀ o ∈ get_giorni_mese 2025 6,
          (pianifica_turni mgrLimitato).2.pianificazione.lookup o = some [] :=
  ⟨by decide, by decide,
    claim_C9_esecuzione_totale mgrLimitato (by decide) (by decide),
    by decide⟩

/-! ## Transfers along static equality, and association-list lemmas -/

theorem nome_eq_of_statico {a b : Addetto} (h : a.statico = b.statico) :
    a.nome = b.nome := by
  obtain ⟨n1, c1, mx1, s1, r1, f1, o1, t1⟩ := a
  obtain ⟨n2, c2, mx2, s2, r2, f2, o2, t2⟩ := b
  simp only [Addetto.statico, Prod.mk.injEq] at h
  exact h.1

theorem puo_lavorare_eq_of_statico {a b : Addetto} (h : a.statico = b.statico) (d : Nat) :
    puo_lavorare a d = puo_lavorare b d := by
  obtain ⟨n1, c1, mx1, s1, r1, f1, o1, t1⟩ := a
  obtain ⟨n2, c2, mx2, s2, r2, f2, o2, t2⟩ := b
  simp only [Addetto.statico, Prod.mk.injEq] at h
  obtain ⟨-, -, -, -, h5, h6⟩ := h
  simp [puo_lavorare, h5, h6]

theorem getD_nome_di_stessi {l1 l2 : List Addetto} (h : stessiStatici l1 l2) (j : Nat) :
    (l1.getD j default).nome = (l2.getD j default).nome := by
  have hj := h j
  rw [List.getD_eq_getElem?_getD, List.getD_eq_getElem?_getD]
  cases h1 : l1[j]? with
  | none =>
    rw [h1] at hj
    cases h2 : l2[j]? with
    | none => rfl
    | some b => rw [h2] at hj; simp at hj
  | some a =>
    rw [h1] at hj
    cases h2 : l2[j]? with
    | none => rw [h2] at hj; simp at hj
    | some b =>
      rw [h2] at hj
      simp at hj ⊢
      exact nome_eq_of_statico hj

theorem getD_puo_lavorare_di_stessi {l1 l2 : List Addetto} (h : stessiStatici l1 l2)
    (j d : Nat) :
    puo_lavorare (l1.getD j default) d = puo_lavorare (l2.getD j default) d := by
  have hj := h j
  rw [List.getD_eq_getElem?_getD, List.getD_eq_getElem?_getD]
  cases h1 : l1[j]? with
  | none =>
    rw [h1] at hj
    cases h2 : l2[j]? with
    | none => rfl
    | some b => rw [h2] at hj; simp at hj
  | some a =>
    rw [h1] at hj
    cases h2 : l2[j]? with
    | none => rw [h2] at hj; simp at hj
    | some b =>
      rw [h2] at hj
      simp at hj ⊢
      exact puo_lavorare_eq_of_statico hj d

theorem lookup_dictSet_other :
    ∀ (l : List (Nat × Nat)) (d t d' : Nat), d' ≠ d →
      (dictSet l d t).lookup d' = l.lookup d' := by
  intro l
  induction l with
  | nil =>
    intro d t d' hne
    have hbeq : (d' == d) = false := by simp [hne]
    simp [dictSet, List.lookup, hbeq]
  | cons kv tl ih =>
    intro d t d' hne
    obtain ⟨k, v⟩ := kv
    by_cases hk : k = d
    · subst hk
      have hbeq : (d' == k) = false := by simp [hne]
      simp [dictSet, List.lookup, hbeq]
    · simp only [dictSet, if_neg hk, List.lookup]
      by_cases hk2 : d' = k
      · simp [hk2]
      · have hbeq : (d' == k) = false := by simp [hk2]
        simp only [hbeq, cond_false]
        exact ih d t d' hne

theorem lookup_innerSet_other :
    ∀ (e : List (String × Nat)) (n : String) (t : Nat) (nm : String), nm ≠ n →
      (innerSet e n t).lookup nm = e.lookup nm := by
  intro e
  induction e with
  | nil =>
    intro n t nm hne
    have hbeq : (nm == n) = false := by simp [hne]
    simp [innerSet, List.lookup, hbeq]
  | cons kv tl ih =>
    intro n t nm hne
    obtain ⟨k, v⟩ := kv
    by_cases hk : k = n
    · subst hk
      have hbeq : (nm == k) = false := by simp [hne]
      simp [innerSet, List.lookup, hbeq]
    · simp only [innerSet, if_neg hk, List.lookup]
      by_cases hk2 : nm = k
      · simp [hk2]
      · have hbeq : (nm == k) = false := by simp [hk2]
        simp only [hbeq, cond_false]
        exact ih n t nm hne

/-- Looking up in the Schedule after the per-assignment update: only the
`data` entry changes, and only by an `innerSet`. -/
theorem lookup_map_aggiorna (data : Nat) (f : List (String × Nat) → List (String × Nat)) :
    ∀ (p : Pianificazione) (d : Nat),
      (p.map (fun e => if e.1 = data then (e.1, f e.2) else e)).lookup d
        = if d = data then (p.lookup d).map f else p.lookup d := by
  intro p
  induction p with
  | nil => intro d; simp [List.lookup]
  | cons kv tl ih =>
    intro d
    obtain ⟨k, v⟩ := kv
    simp only [List.map_cons]
    rw [show (if (k, v).1 = data then ((k, v).1, f (k, v).2) else (k, v))
        = if k = data then (k, f v) else (k, v) from rfl]
    by_cases hk : k = data
    · rw [if_pos hk]
      by_cases hd : d = k
      · subst hk
        subst hd
        simp [List.lookup]
      · have hdata : ¬d = data := fun hdd => hd (hdd.trans hk.symm)
        have hbeq : (d == k) = false := by simp [hd]
        simp only [List.lookup, hbeq, cond_false]
        rw [ih d, if_neg hdata]
    · rw [if_neg hk]
      by_cases hd : d = k
      · have hdata : ¬d = data := fun hdd => hk ((hd.symm.trans hdd) ▸ rfl)
        have hbeq : (d == k) = true := by simp [hd]
        simp [List.lookup, hbeq, hdata]
      · have hbeq : (d == k) = false := by simp [hd]
        simp only [List.lookup, hbeq, cond_false]
        rw [ih d]

theorem cerca_aggiorna_altra_data (p : Pianificazione) (data : Nat)
    (f : List (String × Nat) → List (String × Nat)) (d : Nat) (hd : d ≠ data)
    (nm : String) :
    cerca_assegnazione (p.map (fun e => if e.1 = data then (e.1, f e.2) else e)) d nm
      = cerca_assegnazione p d nm := by
  simp [cerca_assegnazione, lookup_map_aggiorna, hd]

theorem cerca_aggiorna_nome_diverso (p : Pianificazione) (data : Nat) (n : String)
    (t : Nat) (d : Nat) (nm : String) (h : nm ≠ n) :
    cerca_assegnazione
        (p.map (fun e => if e.1 = data then (e.1, innerSet e.2 n t) else e)) d nm
      = cerca_assegnazione p d nm := by
  by_cases hd : d = data
  · subst hd
    simp only [cerca_assegnazione]
    rw [lookup_map_aggiorna d (fun e2 => innerSet e2 n t) p d, if_pos rfl]
    cases p.lookup d with
    | none => rfl
    | some e => simp [lookup_innerSet_other e n t nm h]
  · exact cerca_aggiorna_altra_data p data (fun e2 => innerSet e2 n t) d hd nm

theorem stessi_set_addetto (addetti : List Addetto) (i : Nat) (a2 : Addetto)
    (h : a2.statico = (addetti.getD i default).statico) :
    stessiStatici (addetti.set i a2) addetti := by
  intro k
  rw [List.getElem?_set]
  by_cases hik : i = k
  · subst hik
    by_cases hlen : i < addetti.length
    · rw [if_pos rfl, if_pos hlen, List.getElem?_eq_getElem hlen]
      simp only [Option.map]
      rw [h, getD_default_eq_getElem _ _ hlen]
    · rw [if_pos rfl, if_neg hlen, List.getElem?_eq_none (by omega)]
  · rw [if_neg hik]

theorem getD_set_ne (l : List Addetto) (i j : Nat) (x : Addetto) (h : i ≠ j) :
    (l.set i x).getD j default = l.getD j default := by
  rw [List.getD_eq_getElem?_getD, List.getD_eq_getElem?_getD, List.getElem?_set, if_neg h]

theorem getD_set_eq (l : List Addetto) (i : Nat) (x : Addetto) (h : i < l.length) :
    (l.set i x).getD i default = x := by
  rw [List.getD_eq_getElem?_getD, List.getElem?_set, if_pos rfl, if_pos h]
  rfl

theorem assegna_non_toccato (turni : List Turno) (w data : Nat) :
    ∀ (coppie : List (Nat × Nat)) (st : List Addetto × Pianificazione) (j : Nat),
      (∀ c ∈ coppie, c.1 ≠ j) →
      (assegna turni w data coppie st).1.getD j default = st.1.getD j default := by
  intro coppie
  induction coppie with
  | nil => intro st j _; rfl
  | cons c resto ih =>
    rintro ⟨addetti, piani⟩ j hc
    obtain ⟨i, turno⟩ := c
    have hij : i ≠ j := hc (i, turno) (List.mem_cons_self _ _)
    have hresto : ∀ c ∈ resto, c.1 ≠ j := fun c hcr => hc c (List.mem_cons_of_mem _ hcr)
    simp only [assegna]
    split
    · rw [ih _ j hresto]
      exact getD_set_ne addetti i j _ hij
    · exact ih _ j hresto

theorem assegna_lookup_data_diversa (turni : List Turno) (w data : Nat) :
    ∀ (coppie : List (Nat × Nat)) (st : List Addetto × Pianificazione) (j d : Nat),
      d ≠ data →
      ((assegna turni w data coppie st).1.getD j default).turni_assegnati.lookup d
        = ((st.1.getD j default).turni_assegnati).lookup d := by
  intro coppie
  induction coppie with
  | nil => intro st j d _; rfl
  | cons c resto ih =>
    rintro ⟨addetti, piani⟩ j d hd
    obtain ⟨i, turno⟩ := c
    simp only [assegna]
    split
    · rw [ih _ j d hd]
      by_cases hij : i = j
      · subst hij
        by_cases hlen : i < addetti.length
        · rw [getD_set_eq _ _ _ hlen]
          exact lookup_dictSet_other _ data turno d hd
        · rw [List.set_eq_of_length_le (by omega)]
      · rw [getD_set_ne addetti i j _ hij]
    · exact ih _ j d hd

theorem assegna_cerca_data_diversa (turni : List Turno) (w data : Nat) :
    ∀ (coppie : List (Nat × Nat)) (st : List Addetto × Pianificazione) (d : Nat)
      (nm : String), d ≠ data →
      cerca_assegnazione ((assegna turni w data coppie st).2) d nm
        = cerca_assegnazione st.2 d nm := by
  intro coppie
  induction coppie with
  | nil => intro st d nm _; rfl
  | cons c resto ih =>
    rintro ⟨addetti, piani⟩ d nm hd
    obtain ⟨i, turno⟩ := c
    simp only [assegna]
    split
    · rw [ih _ d nm hd]
      exact cerca_aggiorna_altra_data piani data
        (fun e2 => innerSet e2 (addetti.getD i default).nome turno) d hd nm
    · exact ih _ d nm hd

theorem assegna_cerca_nome (turni : List Turno) (w data : Nat) (nm : String) :
    ∀ (coppie : List (Nat × Nat)) (st : List Addetto × Pianificazione),
      (∀ c ∈ coppie, (st.1.getD c.1 default).nome ≠ nm) →
      ∀ d, cerca_assegnazione ((assegna turni w data coppie st).2) d nm
        = cerca_assegnazione st.2 d nm := by
  intro coppie
  induction coppie with
  | nil => intro st _ d; rfl
  | cons c resto ih =>
    rintro ⟨addetti, piani⟩ hn d
    obtain ⟨i, turno⟩ := c
    have hni : (addetti.getD i default).nome ≠ nm := hn (i, turno) (List.mem_cons_self _ _)
    simp only [assegna]
    split
    · have hstessi : stessiStatici
          (addetti.set i (add_ore_settimana
            { addetti.getD i default with
              turni_assegnati := dictSet (addetti.getD i default).turni_assegnati data turno }
            w (turni.getD turno default).ore)) addetti :=
        stessi_set_addetto _ _ _ rfl
      have hresto : ∀ c ∈ resto,
          (((addetti.set i (add_ore_settimana
            { addetti.getD i default with
              turni_assegnati := dictSet (addetti.getD i default).turni_assegnati data turno }
            w (turni.getD turno default).ore))).getD c.1 default).nome ≠ nm := by
        intro c hcr
        rw [getD_nome_di_stessi hstessi c.1]
        exact hn c (List.mem_cons_of_mem _ hcr)
      rw [ih _ hresto d]
      exact cerca_aggiorna_nome_diverso piani data (addetti.getD i default).nome turno d nm
        (Ne.symm hni)
    · exact ih _ (fun c hcr => hn c (List.mem_cons_of_mem _ hcr)) d

/-! ## Membership in the sorted availability list -/

theorem mem_stableInsert (key : Nat → Int × Nat) (y : Nat) :
    ∀ (l : List Nat) (x : Nat), x ∈ stableInsert key y l → x = y ∨ x ∈ l := by
  intro l
  induction l with
  | nil =>
    intro x hx
    simp only [stableInsert] at hx
    exact Or.inl (List.mem_singleton.mp hx)
  | cons z t ih =>
    intro x hx
    simp only [stableInsert] at hx
    split at hx
    · rcases List.mem_cons.mp hx with h | h
      · exact Or.inl h
      · exact Or.inr h
    · rcases List.mem_cons.mp hx with h | h
      · exact Or.inr (by simp [h])
      · rcases ih x h with h2 | h2
        · exact Or.inl h2
        · exact Or.inr (List.mem_cons_of_mem _ h2)

theorem mem_foldl_stableInsert (key : Nat → Int × Nat) :
    ∀ (l acc : List Nat) (x : Nat),
      x ∈ l.foldl (fun acc y => stableInsert key y acc) acc → x ∈ acc ∨ x ∈ l := by
  intro l
  induction l with
  | nil => intro acc x hx; exact Or.inl hx
  | cons y t ih =>
    intro acc x hx
    simp only [List.foldl_cons] at hx
    rcases ih _ x hx with h | h
    · rcases mem_stableInsert key y acc x h with h2 | h2
      · exact Or.inr (by simp [h2])
      · exact Or.inl h2
    · exact Or.inr (List.mem_cons_of_mem _ h)

theorem mem_stableSort (key : Nat → Int × Nat) (l : List Nat) (x : Nat)
    (hx : x ∈ stableSort key l) : x ∈ l := by
  rcases mem_foldl_stableInsert key l [] x hx with h | h
  · simp at h
  · exact h

/-! ## Claim C2: rest days and absences are honored -/

/-- The per-day core of claim C2, on an abstract pair list whose indices are
all available on `data`. -/
theorem processa_c2_aux (turni : List Turno) (w data : Nat)
    (addetti : List Addetto) (piani : Pianificazione)
    (coppie : List (Nat × Nat)) (i0 d : Nat)
    (hcop : ∀ c ∈ coppie, c.1 < addetti.length
        ∧ puo_lavorare (addetti.getD c.1 default) data = true)
    (hdist : ∀ j, j < addetti.length → j ≠ i0 →
        (addetti.getD j default).nome ≠ (addetti.getD i0 default).nome)
    (hind : puo_lavorare (addetti.getD i0 default) d = false) :
    cerca_assegnazione (assegna turni w data coppie (addetti, piani)).2 d
        ((addetti.getD i0 default).nome)
      = cerca_assegnazione piani d ((addetti.getD i0 default).nome)
    ∧ ((assegna turni w data coppie (addetti, piani)).1.getD i0 default).turni_assegnati.lookup d
      = ((addetti.getD i0 default).turni_assegnati).lookup d := by
  by_cases hd : d = data
  · subst hd
    have hno_i0 : ∀ c ∈ coppie, c.1 ≠ i0 := by
      intro c hc hci
      have h2 := (hcop c hc).2
      rw [hci] at h2
      rw [h2] at hind
      exact absurd hind (by simp)
    constructor
    · refine assegna_cerca_nome turni w d _ coppie (addetti, piani) ?_ d
      intro c hc
      have hc1 := (hcop c hc).1
      exact hdist c.1 hc1 (hno_i0 c hc)
    · rw [assegna_non_toccato turni w d coppie (addetti, piani) i0 (hno_i0)]
  · constructor
    · exact assegna_cerca_data_diversa turni w data coppie (addetti, piani) d _ hd
    · exact assegna_lookup_data_diversa turni w data coppie (addetti, piani) i0 d hd

theorem processa_giorno_c2 (turni : List Turno) (anno mese g : Nat)
    (st : List Addetto × Pianificazione) (i0 d : Nat)
    (hdist : ∀ j, j < st.1.length → j ≠ i0 →
        (st.1.getD j default).nome ≠ (st.1.getD i0 default).nome)
    (hind : puo_lavorare (st.1.getD i0 default) d = false) :
    cerca_assegnazione (processa_giorno turni anno mese g st).2 d
        ((st.1.getD i0 default).nome)
      = cerca_assegnazione st.2 d ((st.1.getD i0 default).nome)
    ∧ ((processa_giorno turni anno mese g st).1.getD i0 default).turni_assegnati.lookup d
      = ((st.1.getD i0 default).turni_assegnati).lookup d := by
  obtain ⟨addetti, piani⟩ := st
  simp only [processa_giorno]
  split
  · exact ⟨rfl, rfl⟩
  · refine processa_c2_aux turni _ _ addetti piani _ i0 d ?_ hdist hind
    intro c hc
    have h1 : c.1 ∈ (List.range addetti.length).filter
        (fun i => puo_lavorare (addetti.getD i default) (toOrdinal anno mese g)) :=
      mem_stableSort _ _ _ ((List.of_mem_zip hc).1)
    rcases List.mem_filter.mp h1 with ⟨hr, hp⟩
    exact ⟨List.mem_range.mp hr, hp⟩

theorem foldl_c2 (turni : List Turno) (anno mese : Nat) :
    ∀ (giorni : List Nat) (st : List Addetto × Pianificazione) (i0 d : Nat),
      (∀ j, j < st.1.length → j ≠ i0 →
          (st.1.getD j default).nome ≠ (st.1.getD i0 default).nome) →
      puo_lavorare (st.1.getD i0 default) d = false →
      cerca_assegnazione
          ((giorni.foldl (fun st g => processa_giorno turni anno mese g st) st)).2 d
          ((st.1.getD i0 default).nome)
        = cerca_assegnazione st.2 d ((st.1.getD i0 default).nome)
      ∧ (((giorni.foldl (fun st g => processa_giorno turni anno mese g st) st)).1.getD
            i0 default).turni_assegnati.lookup d
        = ((st.1.getD i0 default).turni_assegnati).lookup d := by
  intro giorni
  induction giorni with
  | nil => intro st i0 d _ _; exact ⟨rfl, rfl⟩
  | cons g rest ih =>
    intro st i0 d hdist hind
    simp only [List.foldl_cons]
    have hst1 := processa_giorno_c2 turni anno mese g st i0 d hdist hind
    have hstessi : stessiStatici (processa_giorno turni anno mese g st).1 st.1 :=
      processa_giorno_stessiStatici turni anno mese g st
    have hlen : (processa_giorno turni anno mese g st).1.length = st.1.length :=
      stessiStatici_length hstessi
    have hnome : ((processa_giorno turni anno mese g st).1.getD i0 default).nome
        = (st.1.getD i0 default).nome := getD_nome_di_stessi hstessi i0
    have hdist2 : ∀ j, j < (processa_giorno turni anno mese g st).1.length → j ≠ i0 →
        ((processa_giorno turni anno mese g st).1.getD j default).nome
          ≠ ((processa_giorno turni anno mese g st).1.getD i0 default).nome := by
      intro j hj hji
      rw [getD_nome_di_stessi hstessi j, hnome]
      exact hdist j (by omega) hji
    have hind2 : puo_lavorare ((processa_giorno turni anno mese g st).1.getD i0 default) d
        = false := by
      rw [getD_puo_lavorare_di_stessi hstessi i0 d]
      exact hind
    obtain ⟨hA, hB⟩ := ih (processa_giorno turni anno mese g st) i0 d hdist2 hind2
    rw [hnome] at hA
    exact ⟨hA.trans hst1.1, hB.trans hst1.2⟩

/-- The freshly initialised Schedule has only empty entries. -/
theorem lookup_pianificazione_iniziale (anno mese : Nat) :
    ∀ (giorni : List Nat) (d : Nat),
      ((giorni.map (fun g => (toOrdinal anno mese g, []))) : Pianificazione).lookup d = none
      ∨ ((giorni.map (fun g => (toOrdinal anno mese g, []))) : Pianificazione).lookup d
          = some [] := by
  intro giorni
  induction giorni with
  | nil => intro d; exact Or.inl rfl
  | cons g t ih =>
    intro d
    by_cases hd : d = toOrdinal anno mese g
    · right
      have : (d == toOrdinal anno mese g) = true := by simp [hd]
      simp [List.lookup, this]
    · have hbeq : (d == toOrdinal anno mese g) = false := by simp [hd]
      simp only [List.map_cons, List.lookup, hbeq, cond_false]
      exact ih d

theorem cerca_pianificazione_iniziale (anno mese : Nat) (giorni : List Nat) (d : Nat)
    (nm : String) :
    cerca_assegnazione ((giorni.map (fun g => (toOrdinal anno mese g, []))) : Pianificazione)
      d nm = none := by
  rcases lookup_pianificazione_iniziale anno mese giorni d with h | h <;>
    simp [cerca_assegnazione, h, List.lookup]

/-- C2 counterexample: the engine never enforces name uniqueness.  With two
members both named "X", the first resting on Mondays, the second
unconstrained, the run schedules the second on Monday June 2 2025 — so the
Schedule entry for that date *does* carry the first member's name although
Monday is in their rest set. -/
theorem claim_C2_counterexample :
    (pianifica_turni mgrDoppione).1 = true
      ∧ mgrDoppione.addetti.map Addetto.nome = ["X", "X"]
      ∧ pyWeekday (toOrdinal 2025 6 2) ∈ (mgrDoppione.addetti.getD 0 default).giorni_riposo
      ∧ cerca_assegnazione (pianifica_turni mgrDoppione).2.pianificazione
          (toOrdinal 2025 6 2) ((mgrDoppione.addetti.getD 0 default).nome) = some 0 :=
  ⟨by decide, by decide, by decide, by decide⟩

/-- C2 amended.  For every completed run over a roster with *pairwise
distinct display names* (the uniqueness the spec assigns to the caller), a
member is never named in the Schedule on a date in their rest weekdays or
absences, and their own assignment map has no such date. -/
theorem claim_C2_riposo_ferie (m : TurnoManager)
    (hnodup : (m.addetti.map Addetto.nome).Nodup)
    (hsucc : (pianifica_turni m).1 = true) :
    ∀ i : Nat, i < m.addetti.length →
      ∀ d : Nat,
        (pyWeekday d ∈ (m.addetti.getD i default).giorni_riposo
          ∨ d ∈ (m.addetti.getD i default).ferie_permessi) →
        cerca_assegnazione (pianifica_turni m).2.pianificazione d
            ((m.addetti.getD i default).nome) = none
        ∧ ((pianifica_turni m).2.addetti.getD i default).turni_assegnati.lookup d
            = none := by
  by_cases h : m.addetti = [] ∨ m.turni = []
  · rw [pianifica_turni_vuota m h] at hsucc
    simp at hsucc
  · intro i hi d hd
    have hres1 : (pianifica_turni m).2.addetti
        = (pianifica_core m.turni m.anno m.mese m.addetti).1 := by
      simp only [pianifica_turni, if_neg h]
    have hres2 : (pianifica_turni m).2.pianificazione
        = (pianifica_core m.turni m.anno m.mese m.addetti).2 := by
      simp only [pianifica_turni, if_neg h]
    have hget0 : ∀ j, j < m.addetti.length →
        (m.addetti.map reset_addetto).getD j default
          = reset_addetto (m.addetti.getD j default) := by
      intro j hj
      rw [List.getD_eq_getElem?_getD, List.getElem?_map, List.getElem?_eq_getElem hj,
        getD_default_eq_getElem _ _ hj]
      rfl
    have hlen0 : (m.addetti.map reset_addetto).length = m.addetti.length := by simp
    have hnome0 : ∀ j, j < m.addetti.length →
        ((m.addetti.map reset_addetto).getD j default).nome
          = (m.addetti.getD j default).nome := by
      intro j hj
      rw [hget0 j hj]
      rfl
    have hpuo0 : puo_lavorare ((m.addetti.map reset_addetto).getD i default) d = false := by
      rw [hget0 i hi]
      generalize hA : m.addetti.getD i default = a at hd
      show puo_lavorare a d = false
      rcases hd with h1 | h1 <;> simp [puo_lavorare, h1]
    have hdist0 : ∀ j, j < (m.addetti.map reset_addetto).length → j ≠ i →
        ((m.addetti.map reset_addetto).getD j default).nome
          ≠ ((m.addetti.map reset_addetto).getD i default).nome := by
      intro j hj hji heq
      rw [hlen0] at hj
      rw [hnome0 j hj, hnome0 i hi] at heq
      rw [getD_default_eq_getElem _ _ hj, getD_default_eq_getElem _ _ hi] at heq
      apply hji
      have hj2 : j < (m.addetti.map Addetto.nome).length := by simpa using hj
      have hi2 : i < (m.addetti.map Addetto.nome).length := by simpa using hi
      have hg : (m.addetti.map Addetto.nome).get (Fin.mk j hj2)
          = (m.addetti.map Addetto.nome).get (Fin.mk i hi2) := by
        rw [List.get_eq_getElem, List.get_eq_getElem]
        simp only [List.getElem_map]
        exact heq
      have hfin := (List.Nodup.get_inj_iff hnodup).mp hg
      simpa using congrArg Fin.val hfin
    have hfold := foldl_c2 m.turni m.anno m.mese (giorni_validi m.anno m.mese)
      (m.addetti.map reset_addetto,
        (giorni_validi m.anno m.mese).map (fun g => (toOrdinal m.anno m.mese g, [])))
      i d hdist0 hpuo0
    have hcoreeq : pianifica_core m.turni m.anno m.mese m.addetti
        = (giorni_validi m.anno m.mese).foldl
            (fun st g => processa_giorno m.turni m.anno m.mese g st)
            (m.addetti.map reset_addetto,
              (giorni_validi m.anno m.mese).map
                (fun g => (toOrdinal m.anno m.mese g, []))) := rfl
    constructor
    · rw [hres2, hcoreeq]
      have hf1 := hfold.1
      rw [hnome0 i hi] at hf1
      rw [hf1]
      exact cerca_pianificazione_iniziale m.anno m.mese (giorni_validi m.anno m.mese) d _
    · rw [hres1, hcoreeq]
      rw [hfold.2, hget0 i hi]
      rfl

theorem claim_C2_riposo_ferie_witness :
    (mgrGiugno.addetti.map Addetto.nome).Nodup
      ∧ (pianifica_turni mgrGiugno).1 = true
      ∧ 0 < mgrGiugno.addetti.length
      ∧ (pyWeekday (toOrdinal 2025 6 2)
            ∈ (mgrGiugno.addetti.getD 0 default).giorni_riposo
          ∨ toOrdinal 2025 6 2 ∈ (mgrGiugno.addetti.getD 0 default).ferie_permessi)
      ∧ (cerca_assegnazione (pianifica_turni mgrGiugno).2.pianificazione
            (toOrdinal 2025 6 2) ((mgrGiugno.addetti.getD 0 default).nome) = none
          ∧ ((pianifica_turni mgrGiugno).2.addetti.getD 0 default).turni_assegnati.lookup
              (toOrdinal 2025 6 2) = none) :=
  ⟨by decide, by decide, by decide, Or.inl (by decide),
    claim_C2_riposo_ferie mgrGiugno (by decide) (by decide) 0 (by decide)
      (toOrdinal 2025 6 2) (Or.inl (by decide))⟩

/-! ## Further association-list and permutation lemmas (for claim C10) -/

theorem lookup_innerSet_self :
    ∀ (e : List (String × Nat)) (n : String) (t : Nat),
      (innerSet e n t).lookup n = some t := by
  intro e
  induction e with
  | nil => intro n t; simp [innerSet, List.lookup]
  | cons kv tl ih =>
    intro n t
    obtain ⟨k, v⟩ := kv
    by_cases hk : k = n
    · subst hk
      simp [innerSet, List.lookup]
    · have hbeq : (n == k) = false := by simp [Ne.symm hk]
      simp only [innerSet, if_neg hk, List.lookup, hbeq, cond_false]
      exact ih n t

theorem lookup_dictSet_self :
    ∀ (l : List (Nat × Nat)) (d t : Nat), (dictSet l d t).lookup d = some t := by
  intro l
  induction l with
  | nil => intro d t; simp [dictSet, List.lookup]
  | cons kv tl ih =>
    intro d t
    obtain ⟨k, v⟩ := kv
    by_cases hk : k = d
    · subst hk
      simp [dictSet, List.lookup]
    · have hbeq : (d == k) = false := by simp [Ne.symm hk]
      simp only [dictSet, if_neg hk, List.lookup, hbeq, cond_false]
      exact ih d t

theorem dictSet_fresco :
    ∀ (l : List (Nat × Nat)) (d t : Nat), l.lookup d = none →
      dictSet l d t = l ++ [(d, t)] := by
  intro l
  induction l with
  | nil => intro d t _; rfl
  | cons kv tl ih =>
    intro d t hl
    obtain ⟨k, v⟩ := kv
    by_cases hk : k = d
    · subst hk
      simp [List.lookup] at hl
    · have hbeq : (d == k) = false := by simp [Ne.symm hk]
      simp only [List.lookup, hbeq, cond_false] at hl
      simp only [dictSet, if_neg hk, List.cons_append]
      rw [ih d t hl]

theorem cerca_aggiorna_nome_stesso (p : Pianificazione) (data : Nat) (n : String)
    (t : Nat) (e : List (String × Nat)) (hp : p.lookup data = some e) :
    cerca_assegnazione
        (p.map (fun x => if x.1 = data then (x.1, innerSet x.2 n t) else x)) data n
      = some t := by
  simp only [cerca_assegnazione]
  rw [lookup_map_aggiorna data (fun e2 => innerSet e2 n t) p data, if_pos rfl, hp]
  exact lookup_innerSet_self e n t

theorem assegna_lookup_piani_diversa (turni : List Turno) (w data : Nat) :
    ∀ (coppie : List (Nat × Nat)) (st : List Addetto × Pianificazione) (d : Nat),
      d ≠ data →
      ((assegna turni w data coppie st).2).lookup d = (st.2).lookup d := by
  intro coppie
  induction coppie with
  | nil => intro st d _; rfl
  | cons c resto ih =>
    rintro ⟨addetti, piani⟩ d hd
    obtain ⟨i, turno⟩ := c
    simp only [assegna]
    split
    · rw [ih _ d hd]
      rw [lookup_map_aggiorna data
        (fun e2 => innerSet e2 (addetti.getD i default).nome turno) piani d, if_neg hd]
    · exact ih _ d hd

theorem stableInsert_perm (key : Nat → Int × Nat) (y : Nat) :
    ∀ l : List Nat, List.Perm (stableInsert key y l) (y :: l) := by
  intro l
  induction l with
  | nil => exact List.Perm.refl _
  | cons z t ih =>
    simp only [stableInsert]
    split
    · exact List.Perm.refl _
    · exact (List.Perm.cons z ih).trans (List.Perm.swap y z t)

theorem foldl_stableInsert_perm (key : Nat → Int × Nat) :
    ∀ (l acc : List Nat),
      List.Perm (l.foldl (fun acc y => stableInsert key y acc) acc) (acc ++ l) := by
  intro l
  induction l with
  | nil => intro acc; simp
  | cons y t ih =>
    intro acc
    simp only [List.foldl_cons]
    refine (ih (stableInsert key y acc)).trans ?_
    have h1 : List.Perm (stableInsert key y acc ++ t) ((y :: acc) ++ t) :=
      (stableInsert_perm key y acc).append_right t
    refine h1.trans ?_
    simpa using (List.perm_middle (a := y)).symm

theorem stableSort_perm (key : Nat → Int × Nat) (l : List Nat) :
    List.Perm (stableSort key l) l := by
  simpa [stableSort] using foldl_stableInsert_perm key l []

theorem settimana_toOrdinale (anno mese g : Nat) :
    settimanaInMese anno mese (toOrdinal anno mese g) = isocalendarWeek anno mese g := by
  have h : daysBeforeYear anno + daysBeforeMonth anno mese + g
      - (daysBeforeYear anno + daysBeforeMonth anno mese) = g := by omega
  simp only [settimanaInMese, giornoDellOrdinale, toOrdinal]
  rw [h]

theorem ore_in_settimana_append (turni : List Turno) (anno mese : Nat)
    (ass : List (Nat × Nat)) (d t0 w : Nat) :
    ore_in_settimana turni anno mese (ass ++ [(d, t0)]) w
      = ore_in_settimana turni anno mese ass w
        + (if settimanaInMese anno mese d = w then (turni.getD t0 default).ore else 0) := by
  simp only [ore_in_settimana, List.filter_append, List.map_append, List.sum_append]
  by_cases hw : settimanaInMese anno mese d = w
  · simp [hw]
  · simp [hw]

theorem ore_in_settimana_vuoto (turni : List Turno) (anno mese w : Nat) :
    ore_in_settimana turni anno mese [] w = 0 := rfl

/-- What the assignment loop does to one fixed member `i0`, assuming the
pair indices are distinct and other members bear other names: (A) if `i0` is
not among the pairs, their state and their name's Schedule cells are
untouched; (B) if `(i0, t0)` is a pair and the ceiling admits the shift, the
member records exactly `(data ↦ t0)` plus the hours, and the day's cell for
their name becomes `t0`; (C) if the ceiling refuses, nothing changes for
them. -/
theorem assegna_c10_membro (turni : List Turno) (w data : Nat) :
    ∀ (coppie : List (Nat × Nat)) (addetti : List Addetto) (piani : Pianificazione)
      (i0 : Nat),
      (∀ c ∈ coppie, c.1 < addetti.length) →
      (coppie.map Prod.fst).Nodup →
      (∀ c ∈ coppie, c.1 ≠ i0 →
          (addetti.getD c.1 default).nome ≠ (addetti.getD i0 default).nome) →
      ((∀ c ∈ coppie, c.1 ≠ i0) →
          (assegna turni w data coppie (addetti, piani)).1.getD i0 default
              = addetti.getD i0 default
            ∧ ∀ d, cerca_assegnazione (assegna turni w data coppie (addetti, piani)).2 d
                ((addetti.getD i0 default).nome)
              = cerca_assegnazione piani d ((addetti.getD i0 default).nome))
      ∧ (∀ t0, (i0, t0) ∈ coppie →
          puo_aggiungere_ore_settimana (addetti.getD i0 default) w
              ((turni.getD t0 default).ore) = true →
          (∃ e, piani.lookup data = some e) →
          (assegna turni w data coppie (addetti, piani)).1.getD i0 default
              = add_ore_settimana
                  { addetti.getD i0 default with
                    turni_assegnati :=
                      dictSet (addetti.getD i0 default).turni_assegnati data t0 }
                  w ((turni.getD t0 default).ore)
            ∧ cerca_assegnazione (assegna turni w data coppie (addetti, piani)).2 data
                ((addetti.getD i0 default).nome) = some t0
            ∧ ∀ d, d ≠ data →
                cerca_assegnazione (assegna turni w data coppie (addetti, piani)).2 d
                    ((addetti.getD i0 default).nome)
                  = cerca_assegnazione piani d ((addetti.getD i0 default).nome))
      ∧ (∀ t0, (i0, t0) ∈ coppie →
          puo_aggiungere_ore_settimana (addetti.getD i0 default) w
              ((turni.getD t0 default).ore) = false →
          (assegna turni w data coppie (addetti, piani)).1.getD i0 default
              = addetti.getD i0 default
            ∧ ∀ d, cerca_assegnazione (assegna turni w data coppie (addetti, piani)).2 d
                ((addetti.getD i0 default).nome)
              = cerca_assegnazione piani d ((addetti.getD i0 default).nome)) := by
  intro coppie
  induction coppie with
  | nil =>
    intro addetti piani i0 _ _ _
    refine ⟨fun _ => ⟨rfl, fun d => rfl⟩, ?_, ?_⟩
    · intro t0 hmem
      simp at hmem
    · intro t0 hmem
      simp at hmem
  | cons c resto ih =>
    rintro addetti piani i0 hb hnd hnm
    obtain ⟨j, t⟩ := c
    have hbj : j < addetti.length := hb (j, t) (List.mem_cons_self _ _)
    have hbr : ∀ c ∈ resto, c.1 < addetti.length :=
      fun c hc => hb c (List.mem_cons_of_mem _ hc)
    have hndr : (resto.map Prod.fst).Nodup := by
      simpa using hnd.of_cons
    have hjnotin : j ∉ resto.map Prod.fst := by
      have := hnd
      simp only [List.map_cons] at this
      exact (List.nodup_cons.mp this).1
    have hnmr : ∀ c ∈ resto, c.1 ≠ i0 →
        (addetti.getD c.1 default).nome ≠ (addetti.getD i0 default).nome :=
      fun c hc => hnm c (List.mem_cons_of_mem _ hc)
    simp only [assegna]
    split
    case isTrue hguard =>
      -- the updated state
      have hstessi : stessiStatici
          (addetti.set j (add_ore_settimana
            { addetti.getD j default with
              turni_assegnati := dictSet (addetti.getD j default).turni_assegnati data t }
            w ((turni.getD t default).ore))) addetti :=
        stessi_set_addetto _ _ _ rfl
      have hlen' : (addetti.set j (add_ore_settimana
          { addetti.getD j default with
            turni_assegnati := dictSet (addetti.getD j default).turni_assegnati data t }
          w ((turni.getD t default).ore))).length = addetti.length := by
        simp
      by_cases hji : j = i0
      · subst hji
        -- the member being served *is* i0
        have hres_noi0 : ∀ c ∈ resto, c.1 ≠ j := by
          intro c hc hcj
          exact hjnotin (hcj ▸ List.mem_map_of_mem Prod.fst hc)
        refine ⟨?_, ?_, ?_⟩
        · intro habs
          exact absurd rfl (habs (j, t) (List.mem_cons_self _ _))
        · intro t0 hmem hg hentry
          have ht0 : t0 = t := by
            rcases List.mem_cons.mp hmem with h1 | h1
            · exact (Prod.mk.injEq _ _ _ _ ▸ h1).2.symm ▸ rfl
            · exact absurd (List.mem_map_of_mem Prod.fst h1) hjnotin
          rw [ht0]
          obtain ⟨e, he⟩ := hentry
          have hA := (ih (addetti.set j (add_ore_settimana
              { addetti.getD j default with
                turni_assegnati := dictSet (addetti.getD j default).turni_assegnati data t }
              w ((turni.getD t default).ore)))
            (piani.map (fun e =>
              if e.1 = data then (e.1, innerSet e.2 (addetti.getD j default).nome t) else e))
            j (by
              intro c hc
              rw [hlen']
              exact hbr c hc) hndr (by
              intro c hc hci
              rw [getD_nome_di_stessi hstessi c.1, getD_nome_di_stessi hstessi j]
              exact hnmr c hc hci)).1 hres_noi0
          have hset : (addetti.set j (add_ore_settimana
              { addetti.getD j default with
                turni_assegnati := dictSet (addetti.getD j default).turni_assegnati data t }
              w ((turni.getD t default).ore))).getD j default
              = add_ore_settimana
                  { addetti.getD j default with
                    turni_assegnati := dictSet (addetti.getD j default).turni_assegnati data t }
                  w ((turni.getD t default).ore) :=
            getD_set_eq _ _ _ hbj
          have hnomeeq : ((addetti.set j (add_ore_settimana
              { addetti.getD j default with
                turni_assegnati := dictSet (addetti.getD j default).turni_assegnati data t }
              w ((turni.getD t default).ore))).getD j default).nome
              = (addetti.getD j default).nome := by
            rw [hset]
            rfl
          refine ⟨?_, ?_, ?_⟩
          · rw [hA.1, hset]
          · have := hA.2 data
            rw [hnomeeq] at this
            rw [this]
            exact cerca_aggiorna_nome_stesso piani data _ t e he
          · intro d hd
            have := hA.2 d
            rw [hnomeeq] at this
            rw [this]
            exact cerca_aggiorna_altra_data piani data
              (fun e2 => innerSet e2 (addetti.getD j default).nome t) d hd _
        · intro t0 hmem hg
          have ht0 : t0 = t := by
            rcases List.mem_cons.mp hmem with h1 | h1
            · exact (Prod.mk.injEq _ _ _ _ ▸ h1).2.symm ▸ rfl
            · exact absurd (List.mem_map_of_mem Prod.fst h1) hjnotin
          rw [ht0] at hg
          rw [hguard] at hg
          exact absurd hg (by simp)
      · -- another member is served; i0 untouched by this step
        have hgetD : (addetti.set j (add_ore_settimana
            { addetti.getD j default with
              turni_assegnati := dictSet (addetti.getD j default).turni_assegnati data t }
            w ((turni.getD t default).ore))).getD i0 default = addetti.getD i0 default :=
          getD_set_ne _ _ _ _ hji
        have hnomej : (addetti.getD j default).nome ≠ (addetti.getD i0 default).nome :=
          hnm (j, t) (List.mem_cons_self _ _) hji
        have hih := ih (addetti.set j (add_ore_settimana
            { addetti.getD j default with
              turni_assegnati := dictSet (addetti.getD j default).turni_assegnati data t }
            w ((turni.getD t default).ore)))
          (piani.map (fun e =>
            if e.1 = data then (e.1, innerSet e.2 (addetti.getD j default).nome t) else e))
          i0
          (by
            intro c hc
            rw [hlen']
            exact hbr c hc)
          hndr
          (by
            intro c hc hci
            rw [getD_nome_di_stessi hstessi c.1, getD_nome_di_stessi hstessi i0]
            exact hnmr c hc hci)
        refine ⟨?_, ?_, ?_⟩
        · intro habs
          have habsr : ∀ c ∈ resto, c.1 ≠ i0 :=
            fun c hc => habs c (List.mem_cons_of_mem _ hc)
          have hA := hih.1 habsr
          rw [hgetD] at hA
          refine ⟨hA.1, ?_⟩
          intro d
          rw [hA.2 d]
          exact cerca_aggiorna_nome_diverso piani data _ t d _ (Ne.symm hnomej)
        · intro t0 hmem hg hentry
          have hmemr : (i0, t0) ∈ resto := by
            rcases List.mem_cons.mp hmem with h1 | h1
            · exact absurd (congrArg Prod.fst h1).symm hji
            · exact h1
          obtain ⟨e, he⟩ := hentry
          have hentry' : ∃ e2, (piani.map (fun e =>
              if e.1 = data then (e.1, innerSet e.2 (addetti.getD j default).nome t) else e)).lookup
                data = some e2 := by
            refine ⟨innerSet e (addetti.getD j default).nome t, ?_⟩
            rw [lookup_map_aggiorna data
              (fun e2 => innerSet e2 (addetti.getD j default).nome t) piani data,
              if_pos rfl, he]
            rfl
          have hg' : puo_aggiungere_ore_settimana
              ((addetti.set j (add_ore_settimana
                { addetti.getD j default with
                  turni_assegnati := dictSet (addetti.getD j default).turni_assegnati data t }
                w ((turni.getD t default).ore))).getD i0 default) w
              ((turni.getD t0 default).ore) = true := by
            rw [hgetD]
            exact hg
          have hB := hih.2.1 t0 hmemr hg' hentry'
          rw [hgetD] at hB
          refine ⟨hB.1, ?_, ?_⟩
          · exact hB.2.1
          · intro d hd
            rw [hB.2.2 d hd]
            exact cerca_aggiorna_nome_diverso piani data _ t d _ (Ne.symm hnomej)
        · intro t0 hmem hg
          have hmemr : (i0, t0) ∈ resto := by
            rcases List.mem_cons.mp hmem with h1 | h1
            · exact absurd (congrArg Prod.fst h1).symm hji
            · exact h1
          have hg' : puo_aggiungere_ore_settimana
              ((addetti.set j (add_ore_settimana
                { addetti.getD j default with
                  turni_assegnati := dictSet (addetti.getD j default).turni_assegnati data t }
                w ((turni.getD t default).ore))).getD i0 default) w
              ((turni.getD t0 default).ore) = false := by
            rw [hgetD]
            exact hg
          have hC := hih.2.2 t0 hmemr hg'
          rw [hgetD] at hC
          refine ⟨hC.1, ?_⟩
          intro d
          rw [hC.2 d]
          exact cerca_aggiorna_nome_diverso piani data _ t d _ (Ne.symm hnomej)
    case isFalse hguard =>
      have hih := ih addetti piani i0 hbr hndr hnmr
      by_cases hji : j = i0
      · subst hji
        refine ⟨?_, ?_, ?_⟩
        · intro habs
          exact absurd rfl (habs (j, t) (List.mem_cons_self _ _))
        · intro t0 hmem hg hentry
          have ht0 : t0 = t := by
            rcases List.mem_cons.mp hmem with h1 | h1
            · exact (Prod.mk.injEq _ _ _ _ ▸ h1).2.symm ▸ rfl
            · exact absurd (List.mem_map_of_mem Prod.fst h1) hjnotin
          rw [ht0] at hg
          exact absurd hg hguard
        · intro t0 hmem hg
          have hres_noi0 : ∀ c ∈ resto, c.1 ≠ j := by
            intro c hc hcj
            exact hjnotin (hcj ▸ List.mem_map_of_mem Prod.fst hc)
          exact hih.1 hres_noi0
      · refine ⟨?_, ?_, ?_⟩
        · intro habs
          exact hih.1 (fun c hc => habs c (List.mem_cons_of_mem _ hc))
        · intro t0 hmem hg hentry
          have hmemr : (i0, t0) ∈ resto := by
            rcases List.mem_cons.mp hmem with h1 | h1
            · exact absurd (congrArg Prod.fst h1).symm hji
            · exact h1
          exact hih.2.1 t0 hmemr hg hentry
        · intro t0 hmem hg
          have hmemr : (i0, t0) ∈ resto := by
            rcases List.mem_cons.mp hmem with h1 | h1
            · exact absurd (congrArg Prod.fst h1).symm hji
            · exact h1
          exact hih.2.2 t0 hmemr hg

theorem map_fst_zip_sublist :
    ∀ (l1 l2 : List Nat), ((l1.zip l2).map Prod.fst).Sublist l1 := by
  intro l1
  induction l1 with
  | nil => intro l2; simp
  | cons a t ih =>
    intro l2
    cases l2 with
    | nil => simp
    | cons b t2 =>
      simpa using (ih t2).cons₂ a

/-- The per-day outcome for one member `i0`, on the abstract pair list. -/
theorem processa_c10_aux (turni : List Turno) (w data : Nat)
    (addetti : List Addetto) (piani : Pianificazione)
    (coppie : List (Nat × Nat)) (i0 : Nat)
    (hb : ∀ c ∈ coppie, c.1 < addetti.length)
    (hnd : (coppie.map Prod.fst).Nodup)
    (hdist : ∀ j, j < addetti.length → j ≠ i0 →
        (addetti.getD j default).nome ≠ (addetti.getD i0 default).nome)
    (hentry : piani.lookup data = some []) :
    ((assegna turni w data coppie (addetti, piani)).1.getD i0 default
        = addetti.getD i0 default
      ∧ ∀ d, cerca_assegnazione (assegna turni w data coppie (addetti, piani)).2 d
            ((addetti.getD i0 default).nome)
          = cerca_assegnazione piani d ((addetti.getD i0 default).nome))
    ∨ (∃ t0,
        puo_aggiungere_ore_settimana (addetti.getD i0 default) w
            ((turni.getD t0 default).ore) = true
        ∧ (assegna turni w data coppie (addetti, piani)).1.getD i0 default
            = add_ore_settimana
                { addetti.getD i0 default with
                  turni_assegnati :=
                    dictSet (addetti.getD i0 default).turni_assegnati data t0 }
                w ((turni.getD t0 default).ore)
        ∧ cerca_assegnazione (assegna turni w data coppie (addetti, piani)).2 data
            ((addetti.getD i0 default).nome) = some t0
        ∧ ∀ d, d ≠ data →
            cerca_assegnazione (assegna turni w data coppie (addetti, piani)).2 d
                ((addetti.getD i0 default).nome)
              = cerca_assegnazione piani d ((addetti.getD i0 default).nome)) := by
  have hnm : ∀ c ∈ coppie, c.1 ≠ i0 →
      (addetti.getD c.1 default).nome ≠ (addetti.getD i0 default).nome :=
    fun c hc hci => hdist c.1 (hb c hc) hci
  have H := assegna_c10_membro turni w data coppie addetti piani i0 hb hnd hnm
  by_cases hall : ∀ c ∈ coppie, c.1 ≠ i0
  · exact Or.inl (H.1 hall)
  · push_neg at hall
    obtain ⟨c, hc, hci⟩ := hall
    have hc2 : (c.1, c.2) ∈ coppie := by simpa using hc
    rw [hci] at hc2
    by_cases hguard : puo_aggiungere_ore_settimana (addetti.getD i0 default) w
        ((turni.getD c.2 default).ore) = true
    · right
      have hB := H.2.1 c.2 hc2 hguard ⟨[], hentry⟩
      exact ⟨c.2, hguard, hB.1, hB.2.1, hB.2.2⟩
    · left
      exact H.2.2 c.2 hc2 (by simpa using hguard)

theorem processa_c10_membro (turni : List Turno) (anno mese g : Nat)
    (st : List Addetto × Pianificazione) (i0 : Nat)
    (hdist : ∀ j, j < st.1.length → j ≠ i0 →
        (st.1.getD j default).nome ≠ (st.1.getD i0 default).nome)
    (hentry : st.2.lookup (toOrdinal anno mese g) = some []) :
    ((processa_giorno turni anno mese g st).1.getD i0 default = st.1.getD i0 default
      ∧ ∀ d, cerca_assegnazione (processa_giorno turni anno mese g st).2 d
            ((st.1.getD i0 default).nome)
          = cerca_assegnazione st.2 d ((st.1.getD i0 default).nome))
    ∨ (∃ t0,
        puo_aggiungere_ore_settimana (st.1.getD i0 default) (isocalendarWeek anno mese g)
            ((turni.getD t0 default).ore) = true
        ∧ (processa_giorno turni anno mese g st).1.getD i0 default
            = add_ore_settimana
                { st.1.getD i0 default with
                  turni_assegnati := dictSet (st.1.getD i0 default).turni_assegnati
                    (toOrdinal anno mese g) t0 }
                (isocalendarWeek anno mese g) ((turni.getD t0 default).ore)
        ∧ cerca_assegnazione (processa_giorno turni anno mese g st).2
            (toOrdinal anno mese g) ((st.1.getD i0 default).nome) = some t0
        ∧ ∀ d, d ≠ toOrdinal anno mese g →
            cerca_assegnazione (processa_giorno turni anno mese g st).2 d
                ((st.1.getD i0 default).nome)
              = cerca_assegnazione st.2 d ((st.1.getD i0 default).nome)) := by
  obtain ⟨addetti, piani⟩ := st
  simp only [processa_giorno]
  split
  · left
    exact ⟨rfl, fun d => rfl⟩
  · refine processa_c10_aux turni _ _ addetti piani _ i0 ?_ ?_ hdist hentry
    · intro c hc
      have h1 : c.1 ∈ (List.range addetti.length).filter
          (fun i => puo_lavorare (addetti.getD i default) (toOrdinal anno mese g)) :=
        mem_stableSort _ _ _ ((List.of_mem_zip hc).1)
      exact List.mem_range.mp (List.mem_filter.mp h1).1
    · refine List.Nodup.sublist (map_fst_zip_sublist _ _) ?_
      refine (stableSort_perm _ _).symm.nodup ?_
      exact ((List.nodup_range addetti.length).filter _)

theorem get_ore_cambio_assegnati (a : Addetto) (X : List (Nat × Nat)) (w2 : Nat) :
    get_ore_settimana { a with turni_assegnati := X } w2 = get_ore_settimana a w2 := rfl

theorem processa_lookup_piani_diversa (turni : List Turno) (anno mese g : Nat)
    (st : List Addetto × Pianificazione) (d : Nat) (hd : d ≠ toOrdinal anno mese g) :
    ((processa_giorno turni anno mese g st).2).lookup d = (st.2).lookup d := by
  obtain ⟨addetti, piani⟩ := st
  simp only [processa_giorno]
  split
  · rfl
  · exact assegna_lookup_piani_diversa turni _ _ _ _ d hd

/-- The running Schedule/assignment-map/ledger consistency of one member,
maintained across the day loop. -/
theorem foldl_c10 (turni : List Turno) (anno mese : Nat) :
    ∀ (giorni : List Nat) (st : List Addetto × Pianificazione) (i0 : Nat),
      (giorni.map (toOrdinal anno mese)).Nodup →
      (∀ j, j < st.1.length → j ≠ i0 →
          (st.1.getD j default).nome ≠ (st.1.getD i0 default).nome) →
      (∀ g ∈ giorni, (st.2).lookup (toOrdinal anno mese g) = some []) →
      (∀ g ∈ giorni,
          ((st.1.getD i0 default).turni_assegnati).lookup (toOrdinal anno mese g) = none) →
      (∀ d t, cerca_assegnazione st.2 d ((st.1.getD i0 default).nome) = some t
          ↔ ((st.1.getD i0 default).turni_assegnati).lookup d = some t) →
      (∀ w2, get_ore_settimana (st.1.getD i0 default) w2
          = ore_in_settimana turni anno mese ((st.1.getD i0 default).turni_assegnati) w2) →
      (∀ d t, cerca_assegnazione
            ((giorni.foldl (fun st g => processa_giorno turni anno mese g st) st)).2 d
            ((st.1.getD i0 default).nome) = some t
          ↔ (((giorni.foldl (fun st g => processa_giorno turni anno mese g st) st)).1.getD
              i0 default).turni_assegnati.lookup d = some t)
      ∧ (∀ w2, get_ore_settimana
            (((giorni.foldl (fun st g => processa_giorno turni anno mese g st) st)).1.getD
              i0 default) w2
          = ore_in_settimana turni anno mese
              (((giorni.foldl (fun st g => processa_giorno turni anno mese g st) st)).1.getD
                i0 default).turni_assegnati w2) := by
  intro giorni
  induction giorni with
  | nil =>
    intro st i0 _ _ _ _ hiff hsum
    exact ⟨hiff, hsum⟩
  | cons g rest ih =>
    intro st i0 hnodup hdist hent hfresh hiff hsum
    simp only [List.foldl_cons]
    have hstessi : stessiStatici (processa_giorno turni anno mese g st).1 st.1 :=
      processa_giorno_stessiStatici turni anno mese g st
    have hlen' : (processa_giorno turni anno mese g st).1.length = st.1.length :=
      stessiStatici_length hstessi
    have hnome' : ((processa_giorno turni anno mese g st).1.getD i0 default).nome
        = (st.1.getD i0 default).nome := getD_nome_di_stessi hstessi i0
    have hdist' : ∀ j, j < (processa_giorno turni anno mese g st).1.length → j ≠ i0 →
        (((processa_giorno turni anno mese g st).1.getD j default)).nome
          ≠ (((processa_giorno turni anno mese g st).1.getD i0 default)).nome := by
      intro j hj hji
      rw [getD_nome_di_stessi hstessi j, hnome']
      exact hdist j (by omega) hji
    have hordg : toOrdinal anno mese g ∉ rest.map (toOrdinal anno mese) := by
      have := hnodup
      simp only [List.map_cons] at this
      exact (List.nodup_cons.mp this).1
    have hnodup' : (rest.map (toOrdinal anno mese)).Nodup := by
      have := hnodup
      simp only [List.map_cons] at this
      exact (List.nodup_cons.mp this).2
    have hne_rest : ∀ g2 ∈ rest, toOrdinal anno mese g2 ≠ toOrdinal anno mese g := by
      intro g2 hg2 heq
      exact hordg (heq ▸ List.mem_map_of_mem (toOrdinal anno mese) hg2)
    have hent' : ∀ g2 ∈ rest,
        ((processa_giorno turni anno mese g st).2).lookup (toOrdinal anno mese g2)
          = some [] := by
      intro g2 hg2
      rw [processa_lookup_piani_diversa turni anno mese g st _ (hne_rest g2 hg2)]
      exact hent g2 (List.mem_cons_of_mem _ hg2)
    rcases processa_c10_membro turni anno mese g st i0 hdist
        (hent g (List.mem_cons_self _ _)) with hL | ⟨t0, hg0, hup, hcd, hco⟩
    · -- the member was untouched today
      have hfresh' : ∀ g2 ∈ rest,
          (((processa_giorno turni anno mese g st).1.getD i0 default)).turni_assegnati.lookup
            (toOrdinal anno mese g2) = none := by
        intro g2 hg2
        rw [hL.1]
        exact hfresh g2 (List.mem_cons_of_mem _ hg2)
      have hiff' : ∀ d t, cerca_assegnazione (processa_giorno turni anno mese g st).2 d
            (((processa_giorno turni anno mese g st).1.getD i0 default)).nome = some t
          ↔ (((processa_giorno turni anno mese g st).1.getD
              i0 default)).turni_assegnati.lookup d = some t := by
        intro d t
        rw [hL.1, hL.2 d]
        exact hiff d t
      have hsum' : ∀ w2, get_ore_settimana
            ((processa_giorno turni anno mese g st).1.getD i0 default) w2
          = ore_in_settimana turni anno mese
              ((processa_giorno turni anno mese g st).1.getD i0 default).turni_assegnati
              w2 := by
        intro w2
        rw [hL.1]
        exact hsum w2
      have hres := ih (processa_giorno turni anno mese g st) i0 hnodup' hdist' hent'
        hfresh' hiff' hsum'
      rw [hnome'] at hres
      exact hres
    · -- the member received shift `t0` today
      have hfr : ((st.1.getD i0 default).turni_assegnati).lookup (toOrdinal anno mese g)
          = none := hfresh g (List.mem_cons_self _ _)
      have hass : ((processa_giorno turni anno mese g st).1.getD i0 default).turni_assegnati
          = dictSet (st.1.getD i0 default).turni_assegnati (toOrdinal anno mese g) t0 := by
        rw [hup]
        rfl
      have hfresh' : ∀ g2 ∈ rest,
          (((processa_giorno turni anno mese g st).1.getD i0 default)).turni_assegnati.lookup
            (toOrdinal anno mese g2) = none := by
        intro g2 hg2
        rw [hass, lookup_dictSet_other _ _ _ _ (hne_rest g2 hg2)]
        exact hfresh g2 (List.mem_cons_of_mem _ hg2)
      have hiff' : ∀ d t, cerca_assegnazione (processa_giorno turni anno mese g st).2 d
            (((processa_giorno turni anno mese g st).1.getD i0 default)).nome = some t
          ↔ (((processa_giorno turni anno mese g st).1.getD
              i0 default)).turni_assegnati.lookup d = some t := by
        intro d t
        rw [hnome', hass]
        by_cases hd : d = toOrdinal anno mese g
        · subst hd
          rw [hcd, lookup_dictSet_self]
        · rw [hco d hd, lookup_dictSet_other _ _ _ _ hd]
          exact hiff d t
      have hsum' : ∀ w2, get_ore_settimana
            ((processa_giorno turni anno mese g st).1.getD i0 default) w2
          = ore_in_settimana turni anno mese
              ((processa_giorno turni anno mese g st).1.getD i0 default).turni_assegnati
              w2 := by
        intro w2
        rw [hass, hup]
        rw [dictSet_fresco _ _ _ hfr, ore_in_settimana_append,
          settimana_toOrdinale anno mese g]
        by_cases hw : isocalendarWeek anno mese g = w2
        · subst hw
          rw [get_ore_add_self, if_pos rfl, get_ore_cambio_assegnati,
            hsum (isocalendarWeek anno mese g)]
        · rw [get_ore_add_other _ _ _ _ (fun h => hw h.symm), get_ore_cambio_assegnati,
            hsum w2, if_neg hw]
          simp
      have hres := ih (processa_giorno turni anno mese g st) i0 hnodup' hdist' hent'
        hfresh' hiff' hsum'
      rw [hnome'] at hres
      exact hres

/-! ## Claim C10: Schedule, assignment maps and ledgers stay consistent -/

/-- C10 counterexample: with two members both named "X" and two shifts, on
June 1 2025 the first member records shift 0 in their own map while the
Schedule cell for "X" ends up holding shift 1 (the second member's write
overwrote the first): the claimed equivalence fails. -/
theorem claim_C10_counterexample :
    (pianifica_turni mgrDoppioneDue).1 = true
      ∧ ((pianifica_turni mgrDoppioneDue).2.addetti.getD 0 default).turni_assegnati.lookup
          (toOrdinal 2025 6 1) = some 0
      ∧ cerca_assegnazione (pianifica_turni mgrDoppioneDue).2.pianificazione
          (toOrdinal 2025 6 1)
          (((pianifica_turni mgrDoppioneDue).2.addetti.getD 0 default).nome) = some 1 :=
  ⟨by decide, by decide, by decide⟩

/-- C10 amended.  After every successful run over a roster with pairwise
distinct display names, for every member: the Schedule maps their name on
date `d` to shift `t` exactly when their own assignment map does, and their
ledger value for each ISO week `w` equals the summed duration of their
assigned shifts falling in week `w`. -/
theorem claim_C10_coerenza (m : TurnoManager)
    (hnodup : (m.addetti.map Addetto.nome).Nodup)
    (hsucc : (pianifica_turni m).1 = true) :
    ∀ i : Nat, i < m.addetti.length →
      (∀ d t : Nat,
          cerca_assegnazione (pianifica_turni m).2.pianificazione d
              ((m.addetti.getD i default).nome) = some t
            ↔ ((pianifica_turni m).2.addetti.getD i default).turni_assegnati.lookup d
                = some t)
      ∧ ∀ w : Nat,
          get_ore_settimana ((pianifica_turni m).2.addetti.getD i default) w
            = ore_in_settimana m.turni m.anno m.mese
                ((pianifica_turni m).2.addetti.getD i default).turni_assegnati w := by
  by_cases h : m.addetti = [] ∨ m.turni = []
  · rw [pianifica_turni_vuota m h] at hsucc
    simp at hsucc
  · intro i hi
    have hres1 : (pianifica_turni m).2.addetti
        = (pianifica_core m.turni m.anno m.mese m.addetti).1 := by
      simp only [pianifica_turni, if_neg h]
    have hres2 : (pianifica_turni m).2.pianificazione
        = (pianifica_core m.turni m.anno m.mese m.addetti).2 := by
      simp only [pianifica_turni, if_neg h]
    have hget0 : ∀ j, j < m.addetti.length →
        (m.addetti.map reset_addetto).getD j default
          = reset_addetto (m.addetti.getD j default) := by
      intro j hj
      rw [List.getD_eq_getElem?_getD, List.getElem?_map, List.getElem?_eq_getElem hj,
        getD_default_eq_getElem _ _ hj]
      rfl
    have hlen0 : (m.addetti.map reset_addetto).length = m.addetti.length := by simp
    have hnome0 : ∀ j, j < m.addetti.length →
        ((m.addetti.map reset_addetto).getD j default).nome
          = (m.addetti.getD j default).nome := by
      intro j hj
      rw [hget0 j hj]
      rfl
    have hdist0 : ∀ j, j < (m.addetti.map reset_addetto).length → j ≠ i →
        ((m.addetti.map reset_addetto).getD j default).nome
          ≠ ((m.addetti.map reset_addetto).getD i default).nome := by
      intro j hj hji heq
      rw [hlen0] at hj
      rw [hnome0 j hj, hnome0 i hi] at heq
      rw [getD_default_eq_getElem _ _ hj, getD_default_eq_getElem _ _ hi] at heq
      apply hji
      have hj2 : j < (m.addetti.map Addetto.nome).length := by simpa using hj
      have hi2 : i < (m.addetti.map Addetto.nome).length := by simpa using hi
      have hg : (m.addetti.map Addetto.nome).get (Fin.mk j hj2)
          = (m.addetti.map Addetto.nome).get (Fin.mk i hi2) := by
        rw [List.get_eq_getElem, List.get_eq_getElem]
        simp only [List.getElem_map]
        exact heq
      have hfin := (List.Nodup.get_inj_iff hnodup).mp hg
      simpa using congrArg Fin.val hfin
    have hnodup_ord : ((giorni_validi m.anno m.mese).map (toOrdinal m.anno m.mese)).Nodup := by
      have hch := get_giorni_mese_chain m.anno m.mese
      rw [List.chain'_iff_pairwise] at hch
      exact hch.imp Nat.ne_of_lt
    have hent0 : ∀ g ∈ giorni_validi m.anno m.mese,
        (((giorni_validi m.anno m.mese).map
            (fun g => (toOrdinal m.anno m.mese g, []))) : Pianificazione).lookup
          (toOrdinal m.anno m.mese g) = some [] := by
      intro g hg
      rcases lookup_pianificazione_iniziale m.anno m.mese (giorni_validi m.anno m.mese)
          (toOrdinal m.anno m.mese g) with h0 | h0
      · exfalso
        have hmemk : toOrdinal m.anno m.mese g
            ∈ (((giorni_validi m.anno m.mese).map
                (fun g => (toOrdinal m.anno m.mese g, []))) : Pianificazione).map Prod.fst := by
          simpa [List.map_map, Function.comp] using
            List.mem_map_of_mem (toOrdinal m.anno m.mese) hg
        obtain ⟨e, he⟩ := lookup_of_mem_chiavi _ _ hmemk
        rw [h0] at he
        cases he
      · exact h0
    have hfresh0 : ∀ g ∈ giorni_validi m.anno m.mese,
        (((m.addetti.map reset_addetto).getD i default)).turni_assegnati.lookup
          (toOrdinal m.anno m.mese g) = none := by
      intro g _
      rw [hget0 i hi]
      rfl
    have hiff0 : ∀ d t, cerca_assegnazione
          (((giorni_validi m.anno m.mese).map
            (fun g => (toOrdinal m.anno m.mese g, []))) : Pianificazione) d
          (((m.addetti.map reset_addetto).getD i default)).nome = some t
        ↔ (((m.addetti.map reset_addetto).getD i default)).turni_assegnati.lookup d
            = some t := by
      intro d t
      rw [cerca_pianificazione_iniziale, hget0 i hi]
      show (none = some t) ↔ (List.lookup d [] = some t)
      simp [List.lookup]
    have hsum0 : ∀ w2, get_ore_settimana ((m.addetti.map reset_addetto).getD i default) w2
        = ore_in_settimana m.turni m.anno m.mese
            (((m.addetti.map reset_addetto).getD i default)).turni_assegnati w2 := by
      intro w2
      rw [hget0 i hi]
      rfl
    have hfold := foldl_c10 m.turni m.anno m.mese (giorni_validi m.anno m.mese)
      (m.addetti.map reset_addetto,
        (giorni_validi m.anno m.mese).map (fun g => (toOrdinal m.anno m.mese g, [])))
      i hnodup_ord hdist0 hent0 hfresh0 hiff0 hsum0
    have hcoreeq : pianifica_core m.turni m.anno m.mese m.addetti
        = (giorni_validi m.anno m.mese).foldl
            (fun st g => processa_giorno m.turni m.anno m.mese g st)
            (m.addetti.map reset_addetto,
              (giorni_validi m.anno m.mese).map
                (fun g => (toOrdinal m.anno m.mese g, []))) := rfl
    rw [hnome0 i hi] at hfold
    constructor
    · intro d t
      rw [hres1, hres2, hcoreeq]
      exact hfold.1 d t
    · intro w2
      rw [hres1, hcoreeq]
      exact hfold.2 w2

theorem claim_C10_coerenza_witness :
    (mgrGiugno.addetti.map Addetto.nome).Nodup
      ∧ (pianifica_turni mgrGiugno).1 = true
      ∧ 0 < mgrGiugno.addetti.length
      ∧ ((∀ d t : Nat,
            cerca_assegnazione (pianifica_turni mgrGiugno).2.pianificazione d
                ((mgrGiugno.addetti.getD 0 default).nome) = some t
              ↔ ((pianifica_turni mgrGiugno).2.addetti.getD 0 default).turni_assegnati.lookup
                  d = some t)
          ∧ ∀ w : Nat,
              get_ore_settimana ((pianifica_turni mgrGiugno).2.addetti.getD 0 default) w
                = ore_in_settimana mgrGiugno.turni mgrGiugno.anno mgrGiugno.mese
                    ((pianifica_turni mgrGiugno).2.addetti.getD 0 default).turni_assegnati
                    w) :=
  ⟨by decide, by decide, by decide,
    claim_C10_coerenza mgrGiugno (by decide) (by decide) 0 (by decide)⟩

end GestioneTurni
